import Mathlib

/-! # Four-digit seven-segment indicator driver

A shallow embedding of `indicator.cpp` / `indicator.h` (Arduino, AVR target) and the
properties of its number formatter, of its animation engine and of its multiplexing
handler.

Conventions of the embedding

* `uint8_t` values (segment patterns, positions, counts) are natural numbers; the code never
  does arithmetic on them that could leave the range `0..255` (patterns are only copied and
  OR-ed together).
* `int` is the 16-bit two's-complement integer of the AVR target: a mathematical integer in
  `INT_MIN..INT_MAX`; the one operation that can leave the range (the negation in
  `show_fix_to`) is wrapped explicitly with `wrap_int`.
* A `uint8_t *` buffer is a map from (signed) cell index to pattern; a write `mem[i] = d`
  is `Mem.write mem i d`.
* A counted `for` loop is a recursion on the number of iterations that remain, carrying the
  loop variable; a loop with `break` returns early from that recursion.
-/

namespace Indicator

/-! ## Segment patterns (`indicator.h`) -/

def EMPTY : Nat := 0
def DIGIT_0 : Nat := 0b11110101
def DIGIT_1 : Nat := 0b00000101
def DIGIT_2 : Nat := 0b01110011
def DIGIT_3 : Nat := 0b01010111
def DIGIT_4 : Nat := 0b10000111
def DIGIT_5 : Nat := 0b11010110
def DIGIT_6 : Nat := 0b11110110
def DIGIT_7 : Nat := 0b01000101
def DIGIT_8 : Nat := 0b11110111
def DIGIT_9 : Nat := 0b11010111
def SIGN_MINUS : Nat := 0b00000010
def SIGN_DP : Nat := 0b00001000

/-- Positions of the four cells (`DIG1` .. `DIG4` of `indicator.h`, 0-based). -/
def DIG1 : Nat := 0
def DIG2 : Nat := 1
def DIG3 : Nat := 2
def DIG4 : Nat := 3

/-- Kinds of animation (`enum anim_t`). -/
inductive anim_t where
  | ANIM_NO
  | ANIM_GOLEFT
  | ANIM_GORIGHT
  | ANIM_GOUP
  | ANIM_GODOWN
  deriving DecidableEq, Repr

/-! ## Machine integers -/

/-- Smallest value of the 16-bit `int`. -/
def INT_MIN : Int := -32768

/-- Largest value of the 16-bit `int`. -/
def INT_MAX : Int := 32767

/-- Two's-complement wrap of a mathematical integer into the 16-bit `int`. -/
def wrap_int (x : Int) : Int := (x + 32768) % 65536 - 32768

/-! ## Buffers -/

/-- A `uint8_t *` region: the pattern stored at each cell index. -/
abbrev Mem := Int → Nat

/-- The assignment `mem[i] = d`. -/
def Mem.write (mem : Mem) (i : Int) (d : Nat) : Mem :=
  fun k => if k = i then d else mem k

/-- The four cells of a buffer, in order (cell 0 first). -/
def frame (mem : Mem) : List Nat := [mem 0, mem 1, mem 2, mem 3]

/-- A buffer holding the given four cells (every other index reads as blank). -/
def Mem.ofCells (d0 d1 d2 d3 : Nat) : Mem :=
  fun k => if k = 0 then d0 else if k = 1 then d1 else if k = 2 then d2
    else if k = 3 then d3 else 0

/-! ## Digit table (`indicator.cpp`) -/

/-- The table `c_digits[]` of digit images. -/
def c_digits : List Nat :=
  [DIGIT_0, DIGIT_1, DIGIT_2, DIGIT_3, DIGIT_4,
   DIGIT_5, DIGIT_6, DIGIT_7, DIGIT_8, DIGIT_9]

/-- The read `c_digits[k]` with an `int` index. A read outside the table (possible only for a
negative remainder, that is for `num = INT_MIN`) is not defined by the language; it is
given the value 0 here. -/
def c_digits_at (k : Int) : Nat :=
  match k with
  | Int.ofNat n => c_digits.getD n 0
  | Int.negSucc _ => 0

/-! ## Number formatter (`show_fix_to`, `show_int_to`) -/

/-- The local variables of `show_fix_to` that the loop changes, with the buffer. -/
structure FixState where
  mem : Mem
  num : Int
  negative : Bool

/-- One pass of the body of the `for` loop of `show_fix_to`, at position `i`. -/
def show_fix_step (decimals space : Nat) (pos_of_dp : Int) (i : Int) (s : FixState) :
    FixState :=
  if s.num = 0 ∧ i < pos_of_dp ∧ s.negative = true then
    { mem := s.mem.write i SIGN_MINUS, num := Int.tdiv s.num 10, negative := false }
  else
    let n := if s.num > 0 ∨ i ≥ pos_of_dp then c_digits_at (Int.tmod s.num 10) else space
    let n := if decimals ≠ 0 ∧ i = pos_of_dp then n ||| SIGN_DP else n
    { mem := s.mem.write i n, num := Int.tdiv s.num 10, negative := s.negative }

/-- The loop `for (int i = end; i >= begin; i--)` of `show_fix_to`: the first argument is the
number of passes that remain, the second the current `i`. -/
def show_fix_loop (decimals space : Nat) (pos_of_dp : Int) : Nat → Int → FixState → FixState
  | 0, _, s => s
  | n + 1, i, s =>
    show_fix_loop decimals space pos_of_dp n (i - 1)
      (show_fix_step decimals space pos_of_dp i s)

/-- The function `show_fix_to(mem, num, decimals, begin, end, space)`: the returned flag and
the buffer after the call. The loop makes `end - begin + 1` passes (none when
`begin > end`). -/
def show_fix_to (mem : Mem) (num : Int) (decimals begin_ end_ space : Nat) : Bool × Mem :=
  let pos_of_dp : Int := (end_ : Int) - (decimals : Int)
  let s0 : FixState :=
    if num < 0 then { mem := mem, num := wrap_int (-num), negative := true }
    else { mem := mem, num := num, negative := false }
  let s := show_fix_loop decimals space pos_of_dp ((end_ : Int) - (begin_ : Int) + 1).toNat
    (end_ : Int) s0
  (if s.num ≠ 0 ∨ s.negative = true then false else true, s.mem)

/-- The pattern the digit branch of the loop body stores at pass `k` (position `end - k`)
when the magnitude of the number is `num`: a closed form of that branch, used to state the
layouts. -/
def digit_cell (num : Int) (d sp k : Nat) : Nat :=
  if d ≠ 0 ∧ k = d then c_digits_at (num / 10 ^ k % 10) ||| SIGN_DP
  else if k ≤ d ∨ 10 ^ k ≤ num then c_digits_at (num / 10 ^ k % 10) else sp

/-- The function `show_int_to(mem, num, begin, end, space)`. -/
def show_int_to (mem : Mem) (num : Int) (begin_ end_ space : Nat) : Bool × Mem :=
  show_fix_to mem num 0 begin_ end_ space

/-- The number of decimal digits of a natural number (0 has none), as used to state where
the formatter puts the minus sign. -/
def numberOfDecimalDigits (m : Nat) : Nat := (Nat.digits 10 m).length

/-! ## Driver state -/

/-- The global variables of the driver and the hardware registers it writes. The field
`delays` is a log of the calls `delay(step_delay)`: the delay and the frame on show
while it lasts. -/
structure Driver where
  g_indicator : Mem
  g_indicator_i : Nat
  g_brightness : Nat
  PORTB : Nat
  PORTC : Nat
  TCCR2B : Nat
  delays : List (Nat × List Nat)

/-- Timer dividers while a cell is lit, by brightness level. -/
def c_indicator_prescalers_on : List Nat := [0b010, 0b010, 0b010, 0b100]

/-- Timer dividers of the pause before the next cycle, by brightness level. -/
def c_indicator_prescalers_off : List Nat := [0b110, 0b101, 0b100, 0]

/-- The brightest level: `sizeof(c_indicator_prescalers_on) / sizeof(*...) - 1`. -/
def c_max_brightness : Nat := c_indicator_prescalers_on.length - 1

/-- The function `set_brightness(int8_t brightness)`. -/
def set_brightness (brightness : Int) (s : Driver) : Driver :=
  let brightness : Int :=
    if brightness < 0 then 0
    else if brightness > (c_max_brightness : Int) then (c_max_brightness : Int)
    else brightness
  { s with g_brightness := brightness.toNat }

/-- The call `delay(step_delay)` made by `anim`: the buffer is on show, unchanged, for the
given time. -/
def delay (step_delay : Nat) (s : Driver) : Driver :=
  { s with delays := s.delays ++ [(step_delay, frame s.g_indicator)] }

/-- The function `show_fix`: the formatter on the live buffer `g_indicator[4]`. The loop
stores at the positions `end` down to `begin` without a bound check, so the call stays
inside the array only for `end <= 3` (the range 0..3 that the comment of the function
gives); with `end > 3` the code stores past the array, onto whatever is placed after it,
and has no defined result. The argument `h` keeps the function to the calls with
`end <= 3`. -/
def show_fix (num : Int) (decimals begin_ end_ space : Nat) (_ : end_ ≤ 3) (s : Driver) :
    Bool × Driver :=
  let r := show_fix_to s.g_indicator num decimals begin_ end_ space
  (r.1, { s with g_indicator := r.2 })

/-- The function `show_int`: as `show_fix`, for the calls with `end <= 3`. -/
def show_int (num : Int) (begin_ end_ space : Nat) (_ : end_ ≤ 3) (s : Driver) :
    Bool × Driver :=
  let r := show_fix_to s.g_indicator num 0 begin_ end_ space
  (r.1, { s with g_indicator := r.2 })

/-! ## Animation helpers (`anim_send_up`, `anim_take_from_bottom`, ...) -/

/-- The function `anim_send_up(digit)`. -/
def anim_send_up (digit : Nat) : Nat :=
  let res := 0
  let res := if digit &&& 0b00100000 ≠ 0 then res ||| 0b10000000 else res
  let res := if digit &&& 0b00010000 ≠ 0 then res ||| 0b00000010 else res
  let res := if digit &&& 0b00000100 ≠ 0 then res ||| 0b00000001 else res
  let res := if digit &&& 0b00000010 ≠ 0 then res ||| 0b01000000 else res
  res

/-- The function `anim_take_from_bottom(digit, step)`. -/
def anim_take_from_bottom (digit step : Nat) : Nat :=
  let res := 0
  match step with
  | 0 => 0
  | 1 =>
    let res := if digit &&& 0b01000000 ≠ 0 then res ||| 0b00010000 else res
    res
  | 2 =>
    let res := if digit &&& 0b10000000 ≠ 0 then res ||| 0b00100000 else res
    let res := if digit &&& 0b01000000 ≠ 0 then res ||| 0b00000010 else res
    let res := if digit &&& 0b00000010 ≠ 0 then res ||| 0b00010000 else res
    let res := if digit &&& 0b00000001 ≠ 0 then res ||| 0b00000100 else res
    res
  | _ => digit

/-- The function `anim_send_down(digit)`. -/
def anim_send_down (digit : Nat) : Nat :=
  let res := 0
  let res := if digit &&& 0b10000000 ≠ 0 then res ||| 0b00100000 else res
  let res := if digit &&& 0b01000000 ≠ 0 then res ||| 0b00000010 else res
  let res := if digit &&& 0b00000010 ≠ 0 then res ||| 0b00010000 else res
  let res := if digit &&& 0b00000001 ≠ 0 then res ||| 0b00000100 else res
  res

/-- The function `anim_take_from_above(digit, step)`. -/
def anim_take_from_above (digit step : Nat) : Nat :=
  let res := 0
  match step with
  | 0 => 0
  | 1 =>
    let res := if digit &&& 0b00010000 ≠ 0 then res ||| 0b01000000 else res
    res
  | 2 =>
    let res := if digit &&& 0b00100000 ≠ 0 then res ||| 0b10000000 else res
    let res := if digit &&& 0b00010000 ≠ 0 then res ||| 0b00000010 else res
    let res := if digit &&& 0b00000100 ≠ 0 then res ||| 0b00000001 else res
    let res := if digit &&& 0b00000010 ≠ 0 then res ||| 0b01000000 else res
    res
  | _ => digit

/-- The pattern with the bits `k1` .. `k4` that are switched on by the flags `b1` .. `b4`:
the shape of every result of `anim_send_up` and `anim_send_down`. -/
def send_bits (b1 b2 b3 b4 : Bool) (k1 k2 k3 k4 : Nat) : Nat :=
  (if b1 = true then k1 else 0) ||| (if b2 = true then k2 else 0) |||
    (if b3 = true then k3 else 0) ||| (if b4 = true then k4 else 0)

/-! ## Animation (`anim`) -/

/-- The test `g_indicator[0] == 0 && ... && g_indicator[3] == 0` of the two leaving loops. -/
def indicator_is_clear (s : Driver) : Bool :=
  decide (s.g_indicator 0 = 0 ∧ s.g_indicator 1 = 0 ∧ s.g_indicator 2 = 0 ∧
    s.g_indicator 3 = 0)

/-- Leaving loop of `ANIM_GOLEFT` (`for (int8_t i = 0; i < 4; i++)` with `break`): the first
argument is the number of passes that remain. -/
def anim_goleft_leave (step_delay : Nat) : Nat → Driver → Driver
  | 0, s => s
  | n + 1, s =>
    let g := s.g_indicator
    let g := g.write 3 (g 2)
    let g := g.write 2 (g 1)
    let g := g.write 1 (g 0)
    let g := g.write 0 0
    let s := delay step_delay { s with g_indicator := g }
    if indicator_is_clear s = true then s else anim_goleft_leave step_delay n s

/-- Search of `ANIM_GOLEFT` for the last significant cell of the new value
(`for (int i = 3; i >= 0; i--)` with `break`); `last_mem` starts at -1. -/
def anim_find_last (mem : Mem) : Nat → Int → Int
  | 0, _ => -1
  | n + 1, i => if mem i ≠ 0 then i else anim_find_last mem n (i - 1)

/-- Inner loop of the arriving phase of `ANIM_GOLEFT` (`for (int8_t j = 0; j <= i; j++)`). -/
def anim_goleft_row (mem : Mem) (last_mem i : Int) : Nat → Int → Mem → Mem
  | 0, _, g => g
  | n + 1, j, g =>
    let index : Int := last_mem - i + j
    anim_goleft_row mem last_mem i n (j + 1) (g.write j (if index < 0 then 0 else mem index))

/-- Outer loop of the arriving phase of `ANIM_GOLEFT` (`for (int8_t i = 0; i < 4; i++)`). -/
def anim_goleft_come (mem : Mem) (last_mem : Int) (step_delay : Nat) :
    Nat → Int → Driver → Driver
  | 0, _, s => s
  | n + 1, i, s =>
    let g := anim_goleft_row mem last_mem i (i + 1).toNat 0 s.g_indicator
    anim_goleft_come mem last_mem step_delay n (i + 1)
      (delay step_delay { s with g_indicator := g })

/-- Leaving loop of `ANIM_GORIGHT` (`for (int i = 0; i < 4; i++)` with `break`). -/
def anim_goright_leave (step_delay : Nat) : Nat → Driver → Driver
  | 0, s => s
  | n + 1, s =>
    let g := s.g_indicator
    let g := g.write 0 (g 1)
    let g := g.write 1 (g 2)
    let g := g.write 2 (g 3)
    let g := g.write 3 0
    let s := delay step_delay { s with g_indicator := g }
    if indicator_is_clear s = true then s else anim_goright_leave step_delay n s

/-- Search of `ANIM_GORIGHT` for the first significant cell of the new value
(`for (int i = 0; i <= 3; i++)` with `break`); `first_mem` starts at 4. -/
def anim_find_first (mem : Mem) : Nat → Int → Int
  | 0, _ => 4
  | n + 1, i => if mem i ≠ 0 then i else anim_find_first mem n (i + 1)

/-- Inner loop of the arriving phase of `ANIM_GORIGHT` (`for (int j = 0; j <= i; j++)`). -/
def anim_goright_row (mem : Mem) (first_mem i : Int) : Nat → Int → Mem → Mem
  | 0, _, g => g
  | n + 1, j, g =>
    anim_goright_row mem first_mem i n (j + 1) (g.write (3 - i + j) (mem (first_mem + j)))

/-- Outer loop of the arriving phase of `ANIM_GORIGHT`
(`for (int i = 0; i < 4 - first_mem; i++)`). -/
def anim_goright_come (mem : Mem) (first_mem : Int) (step_delay : Nat) :
    Nat → Int → Driver → Driver
  | 0, _, s => s
  | n + 1, i, s =>
    let g := anim_goright_row mem first_mem i (i + 1).toNat 0 s.g_indicator
    anim_goright_come mem first_mem step_delay n (i + 1)
      (delay step_delay { s with g_indicator := g })

/-- Inner loop of the arriving phase of the vertical animations and of the plain copy
(`for (int j = 0; j < 4; j++)`): every cell `j` of the live buffer becomes `f (src[j])`. -/
def anim_map_cells (f : Nat → Nat) (src : Mem) : Nat → Int → Mem → Mem
  | 0, _, g => g
  | n + 1, j, g => anim_map_cells f src n (j + 1) (g.write j (f (src j)))

/-- Inner loop of the leaving phase of the vertical animations
(`for (int j = 0; j < 4; j++)`): every cell `j` of the live buffer becomes `f` of itself. -/
def anim_send_cells (f : Nat → Nat) : Nat → Int → Mem → Mem
  | 0, _, g => g
  | n + 1, j, g => anim_send_cells f n (j + 1) (g.write j (f (g j)))

/-- Leaving loop of the vertical animations (`for (int i = 0; i < 3; i++)`): `send` is
`anim_send_up` for `ANIM_GODOWN` and `anim_send_down` for `ANIM_GOUP`. -/
def anim_vertical_leave (send : Nat → Nat) (step_delay : Nat) : Nat → Driver → Driver
  | 0, s => s
  | n + 1, s =>
    let g := anim_send_cells send 4 0 s.g_indicator
    anim_vertical_leave send step_delay n (delay step_delay { s with g_indicator := g })

/-- Arriving loop of the vertical animations (`for (int i = 1; i <= 3; i++)`): `take` is
`anim_take_from_bottom` for `ANIM_GODOWN` and `anim_take_from_above` for `ANIM_GOUP`. -/
def anim_vertical_come (take : Nat → Nat → Nat) (mem : Mem) (step_delay : Nat) :
    Nat → Nat → Driver → Driver
  | 0, _, s => s
  | n + 1, i, s =>
    let g := anim_map_cells (fun d => take d i) mem 4 0 s.g_indicator
    anim_vertical_come take mem step_delay n (i + 1)
      (delay step_delay { s with g_indicator := g })

/-- The statement `if (brightness >= 0) set_brightness(brightness);` of `anim`. -/
def anim_apply_brightness (brightness : Int) (s : Driver) : Driver :=
  if brightness ≥ 0 then set_brightness brightness s else s

/-- The function `anim(mem, anim_type, step_delay, brightness)`. The new value `mem` is a
buffer of its own (it does not overlap the live buffer). -/
def anim (mem : Mem) (anim_type : anim_t) (step_delay : Nat) (brightness : Int)
    (s : Driver) : Driver :=
  match anim_type with
  | anim_t.ANIM_GOLEFT =>
    let s := anim_goleft_leave step_delay 4 s
    let last_mem := anim_find_last mem 4 3
    let s := anim_apply_brightness brightness s
    anim_goleft_come mem last_mem step_delay 4 0 s
  | anim_t.ANIM_GORIGHT =>
    let s := anim_goright_leave step_delay 4 s
    let first_mem := anim_find_first mem 4 0
    let s := anim_apply_brightness brightness s
    anim_goright_come mem first_mem step_delay (4 - first_mem).toNat 0 s
  | anim_t.ANIM_GODOWN =>
    let s := anim_vertical_leave anim_send_up step_delay 3 s
    let s := anim_apply_brightness brightness s
    anim_vertical_come anim_take_from_bottom mem step_delay 3 1 s
  | anim_t.ANIM_GOUP =>
    let s := anim_vertical_leave anim_send_down step_delay 3 s
    let s := anim_apply_brightness brightness s
    anim_vertical_come anim_take_from_above mem step_delay 3 1 s
  | _ => { s with g_indicator := anim_map_cells (fun d => d) mem 4 0 s.g_indicator }

/-! ## Inverse of the integer formatter -/

/-- Modelled from the spec: the inverse of the table `c_digits` used by the test-only inverse
parser (the parser is not part of the sources): the digit whose image is the pattern `p`,
if there is one. -/
def c_digits_inv (p : Nat) : Option Nat :=
  if p ∈ c_digits then some (c_digits.indexOf p) else none

/-- Modelled from the spec: reading of a run of cells as a base-10 numeral through the
inverse of `c_digits`, most significant digit first; `acc` is the value read so far. It
fails on a cell that is not a digit image. -/
def parse_digits : List Nat → Nat → Option Nat
  | [], acc => some acc
  | p :: rest, acc =>
    match c_digits_inv p with
    | some k => parse_digits rest (10 * acc + k)
    | none => none

/-- Modelled from the spec: the test-only inverse parser of the integer formatter: skip the
leading blank cells, accept one optional `SIGN_MINUS` cell, then read the remaining cells
(at least one) as a base-10 numeral. -/
def parse_cells (cells : List Nat) : Option Int :=
  match cells.dropWhile (fun p => decide (p = EMPTY)) with
  | [] => none
  | p :: rest =>
    if p = SIGN_MINUS then
      match rest with
      | [] => none
      | _ :: _ => (parse_digits rest 0).map (fun n => - (n : Int))
    else (parse_digits (p :: rest) 0).map (fun n => (n : Int))

/-! ## Brightness (`get_brightness`) -/

/-- Two's-complement wrap of a mathematical integer into the 8-bit `int8_t`. -/
def wrap_int8 (x : Int) : Int := (x + 128) % 256 - 128

/-- The function `get_brightness()`: `g_brightness` returned as an `int8_t`. -/
def get_brightness (s : Driver) : Int := wrap_int8 (s.g_brightness : Int)

/-! ## Writes of whole buffers and of single cells (`show_to`, `show`) -/

/-- The function `show_to(mem, d0, d1, d2, d3)`. -/
def show_to (mem : Mem) (d0 d1 d2 d3 : Nat) : Mem :=
  let mem := mem.write 0 d0
  let mem := mem.write 1 d1
  let mem := mem.write 2 d2
  let mem := mem.write 3 d3
  mem

/-- The function `show(d0, d1, d2, d3)` (`show` is a reserved word here). -/
def show_cells (d0 d1 d2 d3 : Nat) (s : Driver) : Driver :=
  let g := s.g_indicator.write 0 d0
  let g := g.write 1 d1
  let g := g.write 2 d2
  let g := g.write 3 d3
  { s with g_indicator := g }

/-- The overload `show_to(mem, d, place)` for one cell; `place` is a `uint8_t`. -/
def show_to_place (mem : Mem) (d place : Nat) : Mem :=
  if place ≥ 0 ∧ place ≤ 3 then mem.write (place : Int) d else mem

/-- The overload `show(d, place)` for one cell of the live buffer. -/
def show_place (d place : Nat) (s : Driver) : Driver :=
  if place ≥ 0 ∧ place ≤ 3 then { s with g_indicator := s.g_indicator.write (place : Int) d }
  else s

/-- The function `clear_indicator()`. -/
def clear_indicator (s : Driver) : Driver :=
  let g := s.g_indicator.write 0 0
  let g := g.write 1 0
  let g := g.write 2 0
  let g := g.write 3 0
  { s with g_indicator := g, PORTB := 0, PORTC := (s.PORTC ||| 0b00111100) % 256 }

/-! ## The class `indicator_t` (`termocontrol/indicator.h`) -/

/-- The data members of the class `indicator_t`. -/
structure indicator_t where
  digits_ : Mem
  digits_n_ : Nat
  repeat_counter_ : Nat
  brightness_ : Nat

/-- The 1-based cell numbers `DIG1` and `DIG4` of `termocontrol/indicator.h`. -/
def indicator_t.DIG1 : Nat := 1

def indicator_t.DIG4 : Nat := 4

/-- The member `indicator_t::memprint(mem, d, dig_n)` for one cell; `dig_n` is a
`uint8_t`, and `dig_n - 1` is computed in `int`. -/
def indicator_t.memprint (mem : Mem) (d dig_n : Nat) : Mem :=
  if dig_n ≥ indicator_t.DIG1 ∧ dig_n ≤ indicator_t.DIG4 then mem.write ((dig_n : Int) - 1) d
  else mem

/-- The member `indicator_t::print(d, dig_n)` for one cell of `digits_`. -/
def indicator_t.print (d dig_n : Nat) (t : indicator_t) : indicator_t :=
  if dig_n ≥ indicator_t.DIG1 ∧ dig_n ≤ indicator_t.DIG4 then
    { t with digits_ := t.digits_.write ((dig_n : Int) - 1) d }
  else t

/-! ## Standard seven-segment glyphs -/

/-- The segments of one cell: A (top), B, C (right), D (bottom), E, F (left), G (middle) and
the decimal point. -/
inductive Segment where
  | A | B | C | D | E | F | G | Dp
  deriving DecidableEq, Repr

/-- The bit of a pattern that drives a segment: the layout F-A-E-D-Dp-C-G-B (bits 7..0)
drawn in `indicator.h` and in `indicator.cpp`. -/
def Segment.bit : Segment → Nat
  | Segment.F => 7
  | Segment.A => 6
  | Segment.E => 5
  | Segment.D => 4
  | Segment.Dp => 3
  | Segment.C => 2
  | Segment.G => 1
  | Segment.B => 0

/-- All eight segments. -/
def Segment.all : List Segment :=
  [Segment.A, Segment.B, Segment.C, Segment.D, Segment.E, Segment.F, Segment.G, Segment.Dp]

/-- The standard seven-segment glyph of a decimal digit, as a list of lit segments (the
reference the table `c_digits` is compared with; not taken from the code). -/
def standard_glyph : Nat → List Segment
  | 0 => [Segment.A, Segment.B, Segment.C, Segment.D, Segment.E, Segment.F]
  | 1 => [Segment.B, Segment.C]
  | 2 => [Segment.A, Segment.B, Segment.D, Segment.E, Segment.G]
  | 3 => [Segment.A, Segment.B, Segment.C, Segment.D, Segment.G]
  | 4 => [Segment.B, Segment.C, Segment.F, Segment.G]
  | 5 => [Segment.A, Segment.C, Segment.D, Segment.F, Segment.G]
  | 6 => [Segment.A, Segment.C, Segment.D, Segment.E, Segment.F, Segment.G]
  | 7 => [Segment.A, Segment.B, Segment.C]
  | 8 => [Segment.A, Segment.B, Segment.C, Segment.D, Segment.E, Segment.F, Segment.G]
  | 9 => [Segment.A, Segment.B, Segment.C, Segment.D, Segment.F, Segment.G]
  | _ => []

/-- The pattern with exactly the bits of the given segments set. -/
def encode_segments (segs : List Segment) : Nat :=
  segs.foldl (fun acc sg => acc ||| (1 <<< sg.bit)) 0

/-- Repeated application of a send remap: `n` steps of `anim_send_up` or `anim_send_down`. -/
def send_steps (send : Nat → Nat) : Nat → Nat → Nat
  | 0, d => d
  | n + 1, d => send_steps send n (send d)

/-! ## Multiplexing (`ISR(TIMER2_OVF_vect)`) -/

/-- The handler `ISR(TIMER2_OVF_vect)`: one tick of timer 2. The registers `PORTB`, `PORTC`
and `TCCR2B` are 8 bits wide, so a value stored in `PORTC` is reduced modulo 256. The mask
`~(1 << (5 - g_indicator_i)) | 0b11000011` is computed in `int`; it is given here by its
16-bit two's-complement pattern. The reads `c_indicator_prescalers_on[g_brightness]`,
`c_indicator_prescalers_off[g_brightness]` and `g_indicator[g_indicator_i]` are defined by
the language only inside the tables (levels 0..3) and the buffer (counter 0..3), and the
shift only for a counter up to 5; outside, the tables read as 0 here and the shift count as
0. -/
def TIMER2_OVF_vect (s : Driver) : Driver :=
  let s := { s with PORTC := (s.PORTC ||| 0b00111100) % 256 }
  let s :=
    if s.g_brightness = c_max_brightness ∧ s.g_indicator_i = 4 then
      { s with g_indicator_i := 0 }
    else s
  if s.g_indicator_i = 4 then
    let s := { s with TCCR2B := c_indicator_prescalers_off.getD s.g_brightness 0 }
    { s with g_indicator_i := 0 }
  else
    let s := { s with TCCR2B := c_indicator_prescalers_on.getD s.g_brightness 0 }
    let s := { s with PORTB := s.g_indicator (s.g_indicator_i : Int) }
    let s := { s with PORTC :=
      (s.PORTC &&& ((0xFFFF ^^^ (1 <<< (5 - s.g_indicator_i))) ||| 0b11000011)) % 256 }
    { s with g_indicator_i := (s.g_indicator_i + 1) % 256 }

/-- The two kinds of tick: a display tick for a position, or the pause tick. -/
inductive Phase where
  | display (i : Nat)
  | pause
  deriving DecidableEq, Repr

/-- The branch the handler takes when it is entered in state `s`: the pause branch
(`g_indicator_i == 4` once the test for the brightest level is passed) or the display branch
for the position `g_indicator_i`. -/
def tick_phase (s : Driver) : Phase :=
  let i := if s.g_brightness = c_max_brightness ∧ s.g_indicator_i = 4 then 0
    else s.g_indicator_i
  if i = 4 then Phase.pause else Phase.display i

/-- The state after `n` consecutive ticks. -/
def ticks : Nat → Driver → Driver
  | 0, s => s
  | n + 1, s => ticks n (TIMER2_OVF_vect s)

/-! ## Frames of the leftward reveal -/

/-- Cell `j` of the frame of reveal step `i` of the leftward animation, as the alignment
rule states it: for `j <= i` the cell `L - i + j` of the new value when that index is not
negative and blank otherwise, and blank for `j > i`; `L` is the index of the last non-blank
cell of the new value. -/
def goleft_reveal_cell (mem : Mem) (L i j : Int) : Nat :=
  if j ≤ i then (if 0 ≤ L - i + j then mem (L - i + j) else 0) else 0

/-- The four cells of the frame of reveal step `i` of the leftward animation. -/
def goleft_reveal_frame (mem : Mem) (L i : Int) : List Nat :=
  [goleft_reveal_cell mem L i 0, goleft_reveal_cell mem L i 1,
   goleft_reveal_cell mem L i 2, goleft_reveal_cell mem L i 3]

/-! ## Indices used by the horizontal animations

The lists below follow the loops of `ANIM_GOLEFT` and `ANIM_GORIGHT` pass by pass and
collect, in order, every index with which the live buffer is written and every index with
which the new value `mem` is read. -/

/-- Indices written in `g_indicator` by the leaving loop of `ANIM_GOLEFT` (cells 3, 2, 1, 0
at each pass; the loop stops as `anim_goleft_leave` does). -/
def anim_goleft_leave_indices (step_delay : Nat) : Nat → Driver → List Int
  | 0, _ => []
  | n + 1, s =>
    let g := s.g_indicator
    let g := g.write 3 (g 2)
    let g := g.write 2 (g 1)
    let g := g.write 1 (g 0)
    let g := g.write 0 0
    let s := delay step_delay { s with g_indicator := g }
    [3, 2, 1, 0] ++
      (if indicator_is_clear s = true then [] else anim_goleft_leave_indices step_delay n s)

/-- Indices with which `mem` is read by the search of `ANIM_GOLEFT`. -/
def anim_find_last_indices (mem : Mem) : Nat → Int → List Int
  | 0, _ => []
  | n + 1, i => i :: (if mem i ≠ 0 then [] else anim_find_last_indices mem n (i - 1))

/-- Indices used by the inner loop of the arriving phase of `ANIM_GOLEFT`: at each pass the
index `j` written in `g_indicator` and, when `index` is not negative, the index read in
`mem`. -/
def anim_goleft_row_indices (last_mem i : Int) : Nat → Int → List Int
  | 0, _ => []
  | n + 1, j =>
    let index : Int := last_mem - i + j
    (j :: (if index < 0 then [] else [index])) ++
      anim_goleft_row_indices last_mem i n (j + 1)

/-- Indices used by the outer loop of the arriving phase of `ANIM_GOLEFT`. -/
def anim_goleft_come_indices (last_mem : Int) : Nat → Int → List Int
  | 0, _ => []
  | n + 1, i =>
    anim_goleft_row_indices last_mem i (i + 1).toNat 0 ++
      anim_goleft_come_indices last_mem n (i + 1)

/-- Every index with which `anim(mem, ANIM_GOLEFT, ...)` writes the live buffer or reads
`mem`. -/
def anim_goleft_indices (mem : Mem) (step_delay : Nat) (s : Driver) : List Int :=
  anim_goleft_leave_indices step_delay 4 s ++ anim_find_last_indices mem 4 3 ++
    anim_goleft_come_indices (anim_find_last mem 4 3) 4 0

/-- Indices written in `g_indicator` by the leaving loop of `ANIM_GORIGHT` (cells 0, 1, 2, 3
at each pass; the loop stops as `anim_goright_leave` does). -/
def anim_goright_leave_indices (step_delay : Nat) : Nat → Driver → List Int
  | 0, _ => []
  | n + 1, s =>
    let g := s.g_indicator
    let g := g.write 0 (g 1)
    let g := g.write 1 (g 2)
    let g := g.write 2 (g 3)
    let g := g.write 3 0
    let s := delay step_delay { s with g_indicator := g }
    [0, 1, 2, 3] ++
      (if indicator_is_clear s = true then [] else anim_goright_leave_indices step_delay n s)

/-- Indices with which `mem` is read by the search of `ANIM_GORIGHT`. -/
def anim_find_first_indices (mem : Mem) : Nat → Int → List Int
  | 0, _ => []
  | n + 1, i => i :: (if mem i ≠ 0 then [] else anim_find_first_indices mem n (i + 1))

/-- Indices used by the inner loop of the arriving phase of `ANIM_GORIGHT`: at each pass
the index `3 - i + j` written in `g_indicator` and the index `first_mem + j` read in
`mem`. -/
def anim_goright_row_indices (first_mem i : Int) : Nat → Int → List Int
  | 0, _ => []
  | n + 1, j =>
    (3 - i + j) :: (first_mem + j) :: anim_goright_row_indices first_mem i n (j + 1)

/-- Indices used by the outer loop of the arriving phase of `ANIM_GORIGHT`. -/
def anim_goright_come_indices (first_mem : Int) : Nat → Int → List Int
  | 0, _ => []
  | n + 1, i =>
    anim_goright_row_indices first_mem i (i + 1).toNat 0 ++
      anim_goright_come_indices first_mem n (i + 1)

/-- Every index with which `anim(mem, ANIM_GORIGHT, ...)` writes the live buffer or reads
`mem`. -/
def anim_goright_indices (mem : Mem) (step_delay : Nat) (s : Driver) : List Int :=
  anim_goright_leave_indices step_delay 4 s ++ anim_find_first_indices mem 4 0 ++
    anim_goright_come_indices (anim_find_first mem 4 0)
      (4 - anim_find_first mem 4 0).toNat 0

/-! ## Driver operations and the state invariant -/

/-- The driver before any call: the globals as `indicator.cpp` initialises them
(`g_indicator` all zero, `g_indicator_i = 0`, `g_brightness = c_max_brightness`), the
registers at their reset value 0 and nothing logged. -/
def initial_driver : Driver :=
  { g_indicator := fun _ => 0, g_indicator_i := 0, g_brightness := c_max_brightness,
    PORTB := 0, PORTC := 0, TCCR2B := 0, delays := [] }

/-- The function `init_indicator()`. Of the registers it sets (`TCCR2A`, `TCCR2B`, `TCNT2`,
`TIMSK2`) only `TCCR2B` is part of the state kept here. -/
def init_indicator (s : Driver) : Driver :=
  { s with TCCR2B := c_indicator_prescalers_on.getD s.g_brightness 0 }

/-- The state invariant of the driver: the position counter is at most 4 and the brightness
level at most 3. -/
def driver_inv (s : Driver) : Prop := s.g_indicator_i ≤ 4 ∧ s.g_brightness ≤ 3

instance driver_inv_decidable (s : Driver) : Decidable (driver_inv s) := by
  unfold driver_inv
  infer_instance

/-- The operations of the driver that act on its state: a timer tick and the public
functions of `indicator.h`. The variants `show_to`, `show_fix_to` and `show_int_to` write a
buffer given by the caller; given the live buffer they act as `show`, `show_fix` and
`show_int`, and given another buffer they leave the state of the driver as it is. The
formatters are operations only for a range that ends inside the live buffer (`end <= 3`):
beyond it the code stores past `g_indicator[3]` and the call has no defined result. -/
inductive Op where
  | tick
  | init_indicator
  | set_brightness (brightness : Int)
  | anim (mem : Mem) (anim_type : anim_t) (step_delay : Nat) (brightness : Int)
  | clear_indicator
  | show_cells (d0 d1 d2 d3 : Nat)
  | show_place (d place : Nat)
  | show_fix (num : Int) (decimals begin_ end_ space : Nat) (h : end_ ≤ 3)
  | show_int (num : Int) (begin_ end_ space : Nat) (h : end_ ≤ 3)

/-- The state of the driver after an operation. -/
def Op.run : Op → Driver → Driver
  | Op.tick, s => TIMER2_OVF_vect s
  | Op.init_indicator, s => Indicator.init_indicator s
  | Op.set_brightness b, s => Indicator.set_brightness b s
  | Op.anim mem anim_type step_delay b, s => Indicator.anim mem anim_type step_delay b s
  | Op.clear_indicator, s => Indicator.clear_indicator s
  | Op.show_cells d0 d1 d2 d3, s => Indicator.show_cells d0 d1 d2 d3 s
  | Op.show_place d place, s => Indicator.show_place d place s
  | Op.show_fix num decimals begin_ end_ space h, s =>
    (Indicator.show_fix num decimals begin_ end_ space h s).2
  | Op.show_int num begin_ end_ space h, s =>
    (Indicator.show_int num begin_ end_ space h s).2

/-- The state of the driver after a sequence of operations, first to last. -/
def run_ops : List Op → Driver → Driver
  | [], s => s
  | op :: rest, s => run_ops rest (op.run s)

/-! ## The formatter loop: general facts -/

theorem Mem.write_same (mem : Mem) (i : Int) (d : Nat) : mem.write i d i = d := by
  simp [Mem.write]

theorem Mem.write_other (mem : Mem) (i j : Int) (d : Nat) (h : j ≠ i) :
    mem.write i d j = mem j := by
  simp [Mem.write, h]

theorem tdiv_ten (x : Int) (h : 0 ≤ x) : Int.tdiv x 10 = x / 10 :=
  Int.tdiv_eq_ediv h (by decide)

theorem tmod_ten (x : Int) (h : 0 ≤ x) : Int.tmod x 10 = x % 10 :=
  Int.tmod_eq_emod h (by decide)

theorem ediv_pow_succ (x : Int) (h : 0 ≤ x) (k : Nat) : x / 10 ^ k / 10 = x / 10 ^ (k + 1) := by
  obtain ⟨m, rfl⟩ := Int.eq_ofNat_of_zero_le h
  norm_cast
  rw [Nat.div_div_eq_div_mul, pow_succ]

theorem show_fix_step_num (d sp : Nat) (pos i : Int) (s : FixState) :
    (show_fix_step d sp pos i s).num = Int.tdiv s.num 10 := by
  unfold show_fix_step
  split_ifs <;> rfl

theorem show_fix_step_negative (d sp : Nat) (pos i : Int) (s : FixState) :
    (show_fix_step d sp pos i s).negative = true ↔
      s.negative = true ∧ ¬ (s.num = 0 ∧ i < pos) := by
  by_cases h : s.num = 0 ∧ i < pos ∧ s.negative = true
  · unfold show_fix_step
    rw [if_pos h]
    constructor
    · intro hf
      exact absurd hf Bool.false_ne_true
    · intro hn
      exact absurd ⟨h.1, h.2.1⟩ hn.2
  · unfold show_fix_step
    rw [if_neg h]
    show s.negative = true ↔ _
    constructor
    · intro hn
      exact ⟨hn, fun hc => h ⟨hc.1, hc.2, hn⟩⟩
    · intro hn
      exact hn.1

theorem show_fix_step_mem_other (d sp : Nat) (pos i j : Int) (s : FixState) (h : j ≠ i) :
    (show_fix_step d sp pos i s).mem j = s.mem j := by
  unfold show_fix_step
  split_ifs <;> simp [Mem.write, h]

theorem show_fix_step_mem_sign (d sp : Nat) (pos i : Int) (s : FixState)
    (h : s.num = 0 ∧ i < pos ∧ s.negative = true) :
    (show_fix_step d sp pos i s).mem i = SIGN_MINUS := by
  unfold show_fix_step
  rw [if_pos h]
  simp [Mem.write]

theorem show_fix_step_mem_digit (d sp : Nat) (pos i : Int) (s : FixState)
    (h : ¬ (s.num = 0 ∧ i < pos ∧ s.negative = true)) :
    (show_fix_step d sp pos i s).mem i =
      if d ≠ 0 ∧ i = pos then
        (if s.num > 0 ∨ i ≥ pos then c_digits_at (Int.tmod s.num 10) else sp) ||| SIGN_DP
      else (if s.num > 0 ∨ i ≥ pos then c_digits_at (Int.tmod s.num 10) else sp) := by
  unfold show_fix_step
  rw [if_neg h]
  simp [Mem.write]

theorem show_fix_loop_succ_back (d sp : Nat) (pos : Int) (k : Nat) (i : Int) (s : FixState) :
    show_fix_loop d sp pos (k + 1) i s =
      show_fix_step d sp pos (i - k) (show_fix_loop d sp pos k i s) := by
  induction k generalizing i s with
  | zero => simp [show_fix_loop]
  | succ k ih =>
    have h1 : show_fix_loop d sp pos (k + 1 + 1) i s =
        show_fix_loop d sp pos (k + 1) (i - 1) (show_fix_step d sp pos i s) := rfl
    have h2 : show_fix_loop d sp pos (k + 1) i s =
        show_fix_loop d sp pos k (i - 1) (show_fix_step d sp pos i s) := rfl
    rw [h1, ih, h2]
    congr 1
    push_cast
    ring

theorem show_fix_loop_num (d sp : Nat) (pos : Int) (k : Nat) (i : Int) (s : FixState)
    (h : 0 ≤ s.num) : (show_fix_loop d sp pos k i s).num = s.num / 10 ^ k := by
  induction k with
  | zero => simp [show_fix_loop]
  | succ k ih =>
    rw [show_fix_loop_succ_back, show_fix_step_num, ih, tdiv_ten]
    · exact ediv_pow_succ s.num h k
    · positivity

theorem show_fix_loop_negative (d sp : Nat) (pos : Int) (k : Nat) (i : Int) (s : FixState)
    (h : 0 ≤ s.num) :
    (show_fix_loop d sp pos k i s).negative = true ↔
      s.negative = true ∧ ∀ j : Nat, j < k → ¬ (s.num / 10 ^ j = 0 ∧ i - j < pos) := by
  induction k with
  | zero => simp [show_fix_loop]
  | succ k ih =>
    rw [show_fix_loop_succ_back, show_fix_step_negative, ih, show_fix_loop_num d sp pos k i s h]
    constructor
    · rintro ⟨⟨hn, hall⟩, hk⟩
      refine ⟨hn, fun j hj => ?_⟩
      rcases Nat.lt_succ_iff_lt_or_eq.mp hj with hlt | heq
      · exact hall j hlt
      · subst heq
        exact hk
    · rintro ⟨hn, hall⟩
      exact ⟨⟨hn, fun j hj => hall j (Nat.lt_succ_of_lt hj)⟩, hall k (Nat.lt_succ_self k)⟩

theorem show_fix_loop_mem_outside (d sp : Nat) (pos : Int) (k : Nat) (i j : Int)
    (s : FixState) (h : i < j ∨ j ≤ i - k) :
    (show_fix_loop d sp pos k i s).mem j = s.mem j := by
  induction k with
  | zero => simp [show_fix_loop]
  | succ k ih =>
    rw [show_fix_loop_succ_back, show_fix_step_mem_other, ih]
    · push_cast at h
      omega
    · push_cast at h
      omega

theorem show_fix_loop_cell (d sp : Nat) (pos : Int) (n k : Nat) (i : Int) (s : FixState)
    (h : k < n) :
    (show_fix_loop d sp pos n i s).mem (i - k) =
      (show_fix_step d sp pos (i - k) (show_fix_loop d sp pos k i s)).mem (i - k) := by
  induction n with
  | zero => omega
  | succ n ih =>
    rcases Nat.lt_succ_iff_lt_or_eq.mp h with hlt | heq
    · rw [show_fix_loop_succ_back, show_fix_step_mem_other, ih hlt]
      omega
    · subst heq
      rw [show_fix_loop_succ_back]

/-! ## The formatter loop: the sign and the cells -/

theorem ediv_pow_eq_zero_iff (x : Int) (h : 0 ≤ x) (k : Nat) :
    x / 10 ^ k = 0 ↔ x < 10 ^ k := by
  have hp : (0 : Int) < 10 ^ k := by positivity
  constructor
  · intro hz
    have h1 := Int.emod_add_ediv x (10 ^ k)
    have h2 := Int.emod_lt_of_pos x hp
    rw [hz] at h1
    omega
  · intro hlt
    exact Int.ediv_eq_zero_of_lt h hlt

theorem ediv_pow_pos_iff (x : Int) (h : 0 ≤ x) (k : Nat) :
    x / 10 ^ k > 0 ↔ 10 ^ k ≤ x := by
  have hp : (0 : Int) < 10 ^ k := by positivity
  have h0 : 0 ≤ x / 10 ^ k := Int.ediv_nonneg h (le_of_lt hp)
  have hz := ediv_pow_eq_zero_iff x h k
  constructor
  · intro hpos
    by_contra hlt
    have := hz.mpr (lt_of_not_le hlt)
    omega
  · intro hle
    have : ¬ x / 10 ^ k = 0 := fun he => absurd (hz.mp he) (not_lt_of_le hle)
    omega

theorem ediv_pow_nonneg (x : Int) (h : 0 ≤ x) (k : Nat) : 0 ≤ x / 10 ^ k :=
  Int.ediv_nonneg h (by positivity)

theorem show_fix_loop_cell_sign (d sp n k : Nat) (e : Int) (s : FixState)
    (h : 0 ≤ s.num) (hk : k < n) (hneg : s.negative = true) (hlt : s.num < 10 ^ k)
    (hd : d < k) (hfirst : ∀ j : Nat, j < k → ¬ (s.num < 10 ^ j ∧ d < j)) :
    (show_fix_loop d sp (e - d) n e s).mem (e - k) = SIGN_MINUS := by
  rw [show_fix_loop_cell d sp (e - d) n k e s hk]
  apply show_fix_step_mem_sign
  refine ⟨?_, ?_, ?_⟩
  · rw [show_fix_loop_num d sp (e - d) k e s h]
    exact (ediv_pow_eq_zero_iff s.num h k).mpr hlt
  · omega
  · rw [show_fix_loop_negative d sp (e - d) k e s h]
    refine ⟨hneg, fun j hj hc => hfirst j hj ⟨?_, ?_⟩⟩
    · exact (ediv_pow_eq_zero_iff s.num h j).mp hc.1
    · omega

theorem show_fix_loop_cell_digit (d sp n k : Nat) (e : Int) (s : FixState)
    (h : 0 ≤ s.num) (hk : k < n)
    (hno : ¬ (s.negative = true ∧ s.num < 10 ^ k ∧ d < k ∧
      ∀ j : Nat, j < k → ¬ (s.num < 10 ^ j ∧ d < j))) :
    (show_fix_loop d sp (e - d) n e s).mem (e - k) = digit_cell s.num d sp k := by
  rw [show_fix_loop_cell d sp (e - d) n k e s hk]
  rw [show_fix_step_mem_digit]
  · rw [show_fix_loop_num d sp (e - d) k e s h,
      tmod_ten _ (ediv_pow_nonneg s.num h k)]
    have e1 : (e - (k : Int) = e - (d : Int)) ↔ k = d := by omega
    have e2 : (e - (k : Int) ≥ e - (d : Int)) ↔ k ≤ d := by omega
    have e3 := ediv_pow_pos_iff s.num h k
    unfold digit_cell
    simp only [e1, e2, e3]
    split_ifs <;> first | rfl | (exfalso; omega)
  · intro hc
    apply hno
    rw [show_fix_loop_num d sp (e - d) k e s h, show_fix_loop_negative d sp (e - d) k e s h]
      at hc
    refine ⟨hc.2.2.1, (ediv_pow_eq_zero_iff s.num h k).mp hc.1, by omega, fun j hj hx => ?_⟩
    apply hc.2.2.2 j hj
    exact ⟨(ediv_pow_eq_zero_iff s.num h j).mpr hx.1, by omega⟩

/-! ## The formatter: the call as a whole -/

theorem toNat_passes (b e : Nat) (hb : b ≤ e) :
    ((e : Int) - (b : Int) + 1).toNat = e - b + 1 := by
  omega

theorem show_fix_to_of_nonneg (mem : Mem) (v : Int) (d b e sp : Nat) (h0 : 0 ≤ v)
    (hb : b ≤ e) :
    show_fix_to mem v d b e sp =
      (if (show_fix_loop d sp ((e : Int) - d) (e - b + 1) e ⟨mem, v, false⟩).num ≠ 0 ∨
          (show_fix_loop d sp ((e : Int) - d) (e - b + 1) e ⟨mem, v, false⟩).negative = true
        then false else true,
       (show_fix_loop d sp ((e : Int) - d) (e - b + 1) e ⟨mem, v, false⟩).mem) := by
  unfold show_fix_to
  simp only [toNat_passes b e hb, if_neg (not_lt_of_le h0)]

theorem show_fix_to_of_neg (mem : Mem) (v : Int) (d b e sp : Nat) (hlo : INT_MIN < v)
    (h0 : v < 0) (hb : b ≤ e) :
    show_fix_to mem v d b e sp =
      (if (show_fix_loop d sp ((e : Int) - d) (e - b + 1) e ⟨mem, -v, true⟩).num ≠ 0 ∨
          (show_fix_loop d sp ((e : Int) - d) (e - b + 1) e ⟨mem, -v, true⟩).negative = true
        then false else true,
       (show_fix_loop d sp ((e : Int) - d) (e - b + 1) e ⟨mem, -v, true⟩).mem) := by
  have hw : wrap_int (-v) = -v := by
    unfold wrap_int
    unfold INT_MIN at hlo
    omega
  unfold show_fix_to
  simp only [toNat_passes b e hb, if_pos h0, hw]

theorem show_fix_to_flag_nonneg (mem : Mem) (v : Int) (d b e sp : Nat) (h0 : 0 ≤ v)
    (hb : b ≤ e) :
    (show_fix_to mem v d b e sp).1 = true ↔ v < 10 ^ (e - b + 1) := by
  rw [show_fix_to_of_nonneg mem v d b e sp h0 hb]
  have hn := show_fix_loop_num d sp ((e : Int) - d) (e - b + 1) e ⟨mem, v, false⟩ h0
  have hg := show_fix_loop_negative d sp ((e : Int) - d) (e - b + 1) e ⟨mem, v, false⟩ h0
  have hg2 : ¬ (show_fix_loop d sp ((e : Int) - d) (e - b + 1) e ⟨mem, v, false⟩).negative
      = true := fun hx => absurd (hg.mp hx).1 Bool.false_ne_true
  have hz := ediv_pow_eq_zero_iff v h0 (e - b + 1)
  simp only [hn] at *
  by_cases hc : v / 10 ^ (e - b + 1) = 0
  · simp [hc, hg2, hz.mp hc]
  · have : ¬ v < 10 ^ (e - b + 1) := fun hx => hc (hz.mpr hx)
    simp [hc, this]

theorem show_fix_to_flag_neg (mem : Mem) (v : Int) (d b e sp : Nat) (hlo : INT_MIN < v)
    (h0 : v < 0) (hb : b ≤ e) :
    (show_fix_to mem v d b e sp).1 = true ↔
      -v < 10 ^ (e - b) ∧ (b : Int) < (e : Int) - (d : Int) := by
  have hm : (0 : Int) ≤ -v := by omega
  rw [show_fix_to_of_neg mem v d b e sp hlo h0 hb]
  have hn := show_fix_loop_num d sp ((e : Int) - d) (e - b + 1) e ⟨mem, -v, true⟩ hm
  have hg := show_fix_loop_negative d sp ((e : Int) - d) (e - b + 1) e ⟨mem, -v, true⟩ hm
  have hz := ediv_pow_eq_zero_iff (-v) hm (e - b + 1)
  simp only [hn] at *
  constructor
  · intro hr
    by_cases hc : -v / 10 ^ (e - b + 1) = 0
    · by_cases hx : (show_fix_loop d sp ((e : Int) - d) (e - b + 1) e
          ⟨mem, -v, true⟩).negative = true
      · simp [hc, hx] at hr
      · have hex : ¬ ∀ j : Nat, j < e - b + 1 →
            ¬ (-v / 10 ^ j = 0 ∧ (e : Int) - j < (e : Int) - d) :=
          fun hall => hx (hg.mpr ⟨trivial, hall⟩)
        push_neg at hex
        obtain ⟨j, hj, hj0, hjd⟩ := hex
        have hlt := (ediv_pow_eq_zero_iff (-v) hm j).mp hj0
        have hpow : (10 : Int) ^ j ≤ 10 ^ (e - b) :=
          pow_le_pow_right₀ (by norm_num) (by omega)
        exact ⟨lt_of_lt_of_le hlt hpow, by omega⟩
    · simp [hc] at hr
  · rintro ⟨hlt, hbd⟩
    have hpow : (10 : Int) ^ (e - b) ≤ 10 ^ (e - b + 1) :=
      pow_le_pow_right₀ (by norm_num) (by omega)
    have hc : -v / 10 ^ (e - b + 1) = 0 := hz.mpr (lt_of_lt_of_le hlt hpow)
    have hx : ¬ (show_fix_loop d sp ((e : Int) - d) (e - b + 1) e
        ⟨mem, -v, true⟩).negative = true := by
      intro hx
      have := (hg.mp hx).2 (e - b) (by omega)
      apply this
      exact ⟨(ediv_pow_eq_zero_iff (-v) hm (e - b)).mpr hlt, by omega⟩
    simp [hc, hx]

/-! ## Facts about the digit table -/

theorem emod_ten_cases (y : Int) :
    ∃ x : Nat, x < 10 ∧ y % 10 = (x : Int) := by
  refine ⟨(y % 10).toNat, ?_, ?_⟩ <;> omega

theorem c_digits_at_ofNat (x : Nat) : c_digits_at (x : Int) = c_digits.getD x 0 := rfl

theorem c_digits_at_ne_minus (y : Int) :
    c_digits_at (y % 10) ≠ SIGN_MINUS ∧ c_digits_at (y % 10) ||| SIGN_DP ≠ SIGN_MINUS := by
  obtain ⟨x, hx, hy⟩ := emod_ten_cases y
  rw [hy, c_digits_at_ofNat]
  interval_cases x <;> decide

theorem c_digits_at_dp_clear (y : Int) : c_digits_at (y % 10) &&& SIGN_DP = 0 := by
  obtain ⟨x, hx, hy⟩ := emod_ten_cases y
  rw [hy, c_digits_at_ofNat]
  interval_cases x <;> decide

theorem c_digits_at_dp_set (y : Int) :
    (c_digits_at (y % 10) ||| SIGN_DP) &&& SIGN_DP ≠ 0 := by
  obtain ⟨x, hx, hy⟩ := emod_ten_cases y
  rw [hy, c_digits_at_ofNat]
  interval_cases x <;> decide

/-! ## The formatter: flag and cells of a call -/

theorem show_fix_to_eq_loop (mem : Mem) (v : Int) (d b e sp : Nat) (hlo : INT_MIN < v)
    (hb : b ≤ e) :
    show_fix_to mem v d b e sp =
      (if (show_fix_loop d sp ((e : Int) - d) (e - b + 1) e
            ⟨mem, |v|, decide (v < 0)⟩).num ≠ 0 ∨
          (show_fix_loop d sp ((e : Int) - d) (e - b + 1) e
            ⟨mem, |v|, decide (v < 0)⟩).negative = true
        then false else true,
       (show_fix_loop d sp ((e : Int) - d) (e - b + 1) e
          ⟨mem, |v|, decide (v < 0)⟩).mem) := by
  rcases lt_or_le v 0 with hneg | hpos
  · rw [show_fix_to_of_neg mem v d b e sp hlo hneg hb, abs_of_neg hneg, decide_eq_true hneg]
  · rw [show_fix_to_of_nonneg mem v d b e sp hpos hb, abs_of_nonneg hpos,
      decide_eq_false (not_lt_of_le hpos)]

theorem show_fix_to_cell_sign (mem : Mem) (v : Int) (d b e sp k : Nat) (hlo : INT_MIN < v)
    (hb : b ≤ e) (hk : k ≤ e - b) (hneg : v < 0) (hlt : |v| < 10 ^ k) (hd : d < k)
    (hfirst : ∀ j : Nat, j < k → ¬ (|v| < 10 ^ j ∧ d < j)) :
    (show_fix_to mem v d b e sp).2 ((e : Int) - k) = SIGN_MINUS := by
  rw [show_fix_to_eq_loop mem v d b e sp hlo hb]
  exact show_fix_loop_cell_sign d sp (e - b + 1) k e ⟨mem, |v|, decide (v < 0)⟩
    (abs_nonneg v) (by omega) (decide_eq_true hneg) hlt hd hfirst

theorem show_fix_to_cell_digit (mem : Mem) (v : Int) (d b e sp k : Nat) (hlo : INT_MIN < v)
    (hb : b ≤ e) (hk : k ≤ e - b)
    (hno : ¬ (v < 0 ∧ |v| < 10 ^ k ∧ d < k ∧ ∀ j : Nat, j < k → ¬ (|v| < 10 ^ j ∧ d < j))) :
    (show_fix_to mem v d b e sp).2 ((e : Int) - k) = digit_cell |v| d sp k := by
  rw [show_fix_to_eq_loop mem v d b e sp hlo hb]
  apply show_fix_loop_cell_digit d sp (e - b + 1) k e ⟨mem, |v|, decide (v < 0)⟩
    (abs_nonneg v) (by omega)
  intro hc
  apply hno
  exact ⟨of_decide_eq_true hc.1, hc.2⟩

theorem show_fix_to_flag (mem : Mem) (v : Int) (d b e sp : Nat) (hlo : INT_MIN < v)
    (hb : b ≤ e) :
    (show_fix_to mem v d b e sp).1 = true ↔
      (0 ≤ v ∧ v < 10 ^ (e - b + 1)) ∨
      (v < 0 ∧ |v| < 10 ^ (e - b) ∧ (b : Int) < (e : Int) - (d : Int)) := by
  rcases lt_or_le v 0 with hneg | hpos
  · rw [show_fix_to_flag_neg mem v d b e sp hlo hneg hb, abs_of_neg hneg]
    constructor
    · intro h
      exact Or.inr ⟨hneg, h⟩
    · rintro (h | h)
      · omega
      · exact h.2
  · rw [show_fix_to_flag_nonneg mem v d b e sp hpos hb]
    constructor
    · intro h
      exact Or.inl ⟨hpos, h⟩
    · rintro (h | h)
      · exact h.2
      · omega

theorem digits_length_le_iff (m j : Nat) : (Nat.digits 10 m).length ≤ j ↔ m < 10 ^ j := by
  constructor
  · intro h
    have h1 : m < 10 ^ (Nat.digits 10 m).length := Nat.lt_base_pow_length_digits (by norm_num)
    exact lt_of_lt_of_le h1 (Nat.pow_le_pow_right (by norm_num) h)
  · intro h
    by_contra hlt
    push_neg at hlt
    rcases Nat.eq_zero_or_pos m with hm | hm
    · subst hm
      simp at hlt
    · have h2 := Nat.base_pow_length_digits_le 10 m (by norm_num) (by omega)
      have h3 : 10 ^ (j + 1) ≤ 10 ^ (Nat.digits 10 m).length :=
        Nat.pow_le_pow_right (by norm_num) hlt
      rw [pow_succ] at h3
      omega

theorem abs_lt_pow_iff (v : Int) (j : Nat) :
    |v| < 10 ^ j ↔ (Nat.digits 10 v.natAbs).length ≤ j := by
  rw [digits_length_le_iff, Int.abs_eq_natAbs]
  norm_cast

theorem show_fix_to_cell_cases (mem : Mem) (v : Int) (d b e sp k : Nat) (hlo : INT_MIN < v)
    (hb : b ≤ e) (hk : k ≤ e - b) :
    (d < k ∧ (show_fix_to mem v d b e sp).2 ((e : Int) - k) = SIGN_MINUS) ∨
    (show_fix_to mem v d b e sp).2 ((e : Int) - k) = digit_cell |v| d sp k := by
  by_cases hc : v < 0 ∧ |v| < 10 ^ k ∧ d < k ∧ ∀ j : Nat, j < k → ¬ (|v| < 10 ^ j ∧ d < j)
  · exact Or.inl ⟨hc.2.2.1,
      show_fix_to_cell_sign mem v d b e sp k hlo hb hk hc.1 hc.2.1 hc.2.2.1 hc.2.2.2⟩
  · exact Or.inr (show_fix_to_cell_digit mem v d b e sp k hlo hb hk hc)

theorem sign_minus_dp_clear : SIGN_MINUS &&& SIGN_DP = 0 := by decide

theorem show_fix_to_dp_clear (mem : Mem) (v : Int) (d b e sp : Nat) (hlo : INT_MIN < v)
    (hb : b ≤ e) (hsp : sp &&& SIGN_DP = 0) (j : Int) (hbj : (b : Int) ≤ j)
    (hje : j ≤ (e : Int)) (hjd : d = 0 ∨ j ≠ (e : Int) - (d : Int)) :
    (show_fix_to mem v d b e sp).2 j &&& SIGN_DP = 0 := by
  have hj : j = (e : Int) - ((e - j.toNat : Nat) : Int) := by omega
  have hk : e - j.toNat ≤ e - b := by omega
  rw [hj]
  rcases show_fix_to_cell_cases mem v d b e sp (e - j.toNat) hlo hb hk with h | h
  · rw [h.2]
    exact sign_minus_dp_clear
  · rw [h]
    unfold digit_cell
    rw [if_neg (fun hx => by omega)]
    split_ifs
    · exact c_digits_at_dp_clear _
    · exact hsp

/-! ## The formatter: overflow flag and layouts -/

/-- C1: for a range `0 <= begin <= end <= 3`, every `decimals`, fill char and `int` value
other than the most negative one, `show_fix_to` returns true exactly when the value is
non-negative and below `10^(end-begin+1)`, or negative with magnitude below `10^(end-begin)`
and `begin < end - decimals`; on the default range with no decimals that is exactly
`-999 <= v <= 9999`. -/
theorem show_fix_to_true_iff_fits (mem : Mem) (v : Int) (d b e fill : Nat)
    (hb : b ≤ e) (he : e ≤ 3) (hlo : INT_MIN < v) (hhi : v ≤ INT_MAX) :
    ((show_fix_to mem v d b e fill).1 = true ↔
      (0 ≤ v ∧ v < 10 ^ (e - b + 1)) ∨
      (v < 0 ∧ |v| < 10 ^ (e - b) ∧ (b : Int) < (e : Int) - (d : Int))) ∧
    ((show_fix_to mem v 0 DIG1 DIG4 fill).1 = true ↔ -999 ≤ v ∧ v ≤ 9999) := by
  have key : ∀ d b e : Nat, b ≤ e → ((show_fix_to mem v d b e fill).1 = true ↔
      (0 ≤ v ∧ v < 10 ^ (e - b + 1)) ∨
      (v < 0 ∧ |v| < 10 ^ (e - b) ∧ (b : Int) < (e : Int) - (d : Int))) :=
    fun d b e hb => show_fix_to_flag mem v d b e fill hlo hb
  refine ⟨key d b e hb, ?_⟩
  rw [key 0 DIG1 DIG4 (by decide)]
  have h1 : DIG4 - DIG1 + 1 = 4 := by decide
  have h2 : DIG4 - DIG1 = 3 := by decide
  rw [h1, h2]
  have h3 : ((DIG1 : Nat) : Int) < ((DIG4 : Nat) : Int) - ((0 : Nat) : Int) := by decide
  rcases lt_or_le v 0 with hneg | hpos
  · rw [abs_of_neg hneg]
    constructor
    · rintro (h | h)
      · omega
      · have := h.2.1
        norm_num at this
        omega
    · intro h
      refine Or.inr ⟨hneg, ?_, h3⟩
      norm_num
      omega
  · constructor
    · rintro (h | h)
      · have := h.2
        norm_num at this
        omega
      · omega
    · intro h
      refine Or.inl ⟨hpos, ?_⟩
      norm_num
      omega

theorem show_fix_to_true_iff_fits_witness :
    (0 ≤ 3 ∧ 3 ≤ 3 ∧ INT_MIN < (-5 : Int) ∧ (-5 : Int) ≤ INT_MAX) ∧
    (((show_fix_to (Mem.ofCells 0 0 0 0) (-5) 1 0 3 0).1 = true ↔
      (0 ≤ (-5 : Int) ∧ (-5 : Int) < 10 ^ (3 - 0 + 1)) ∨
      ((-5 : Int) < 0 ∧ |(-5 : Int)| < 10 ^ (3 - 0) ∧
        ((0 : Nat) : Int) < ((3 : Nat) : Int) - ((1 : Nat) : Int))) ∧
    ((show_fix_to (Mem.ofCells 0 0 0 0) (-5) 0 DIG1 DIG4 0).1 = true ↔
      -999 ≤ (-5 : Int) ∧ (-5 : Int) ≤ 9999)) :=
  ⟨by decide, show_fix_to_true_iff_fits (Mem.ofCells 0 0 0 0) (-5) 1 0 3 0
    (by decide) (by decide) (by decide) (by decide)⟩

/-- C2: for a range `0 <= begin <= end <= 3` and a value `0 <= v < 10^(end-begin+1)`,
`show_fix_to` returns true and cell `end-k` (`k = 0..end-begin`) holds the image of the
digit `(v / 10^k) % 10` when `k <= decimals` or `10^k <= v` and the fill char otherwise,
OR-ed with `SIGN_DP` exactly when `decimals != 0` and `k = decimals`; in particular
`show_int_to` of 0 on the range 0..3 returns true and writes fill, fill, fill, `DIGIT_0`. -/
theorem show_fix_to_layout_nonneg (mem : Mem) (v : Int) (d b e fill : Nat)
    (hb : b ≤ e) (he : e ≤ 3) (h0 : 0 ≤ v) (hv : v < 10 ^ (e - b + 1)) :
    (show_fix_to mem v d b e fill).1 = true ∧
    (∀ k : Nat, k ≤ e - b →
      (show_fix_to mem v d b e fill).2 ((e : Int) - k) =
        if d ≠ 0 ∧ k = d then c_digits_at (v / 10 ^ k % 10) ||| SIGN_DP
        else if k ≤ d ∨ 10 ^ k ≤ v then c_digits_at (v / 10 ^ k % 10) else fill) ∧
    ((show_int_to mem 0 0 3 fill).1 = true ∧
      frame (show_int_to mem 0 0 3 fill).2 = [fill, fill, fill, DIGIT_0]) := by
  have hlo : INT_MIN < v := lt_of_lt_of_le (by decide) h0
  refine ⟨(show_fix_to_flag_nonneg mem v d b e fill h0 hb).mpr hv, ?_, ?_⟩
  · intro k hk
    have hc := show_fix_to_cell_digit mem v d b e fill k hlo hb hk (fun hx => by omega)
    rw [abs_of_nonneg h0] at hc
    rw [hc]
    rfl
  · have hlo0 : INT_MIN < (0 : Int) := by decide
    refine ⟨(show_fix_to_flag_nonneg mem 0 0 0 3 fill (le_refl 0) (by decide)).mpr
      (by norm_num), ?_⟩
    have c0 := show_fix_to_cell_digit mem 0 0 0 3 fill 0 hlo0 (by decide) (by decide)
      (fun hx => by omega)
    have c1 := show_fix_to_cell_digit mem 0 0 0 3 fill 1 hlo0 (by decide) (by decide)
      (fun hx => by omega)
    have c2 := show_fix_to_cell_digit mem 0 0 0 3 fill 2 hlo0 (by decide) (by decide)
      (fun hx => by omega)
    have c3 := show_fix_to_cell_digit mem 0 0 0 3 fill 3 hlo0 (by decide) (by decide)
      (fun hx => by omega)
    simp only [digit_cell] at c0 c1 c2 c3
    norm_num at c0 c1 c2 c3
    unfold show_int_to frame
    rw [c0, c1, c2, c3]
    rfl

theorem show_fix_to_layout_nonneg_witness :
    (0 ≤ 3 ∧ 3 ≤ 3 ∧ (0 : Int) ≤ 305 ∧ (305 : Int) < 10 ^ (3 - 0 + 1)) ∧
    (show_fix_to (Mem.ofCells 1 1 1 1) 305 1 0 3 5).1 = true ∧
    frame (show_fix_to (Mem.ofCells 1 1 1 1) 305 1 0 3 5).2 =
      [5, DIGIT_3, DIGIT_0 ||| SIGN_DP, DIGIT_5] :=
  ⟨by decide,
   (show_fix_to_layout_nonneg (Mem.ofCells 1 1 1 1) 305 1 0 3 5 (by decide) (by decide)
      (by decide) (by decide)).1,
   by decide⟩

/-- C3: for a range `0 <= begin <= end <= 3` and an `int` value (not the most negative one)
with `|v| >= 10^(end-begin+1)`, `show_fix_to` returns false and every cell `end-k`
(`k = 0..end-begin`) holds the image of the low-order digit `(|v| / 10^k) % 10`, OR-ed with
`SIGN_DP` exactly when `decimals != 0` and `k = decimals`, and so is not the minus sign; in
particular `show_int_to` of 12345 on the range 0..3 returns false and leaves `DIGIT_2`,
`DIGIT_3`, `DIGIT_4`, `DIGIT_5`. -/
theorem show_fix_to_layout_overflow (mem : Mem) (v : Int) (d b e fill : Nat)
    (hb : b ≤ e) (he : e ≤ 3) (hlo : INT_MIN < v) (hhi : v ≤ INT_MAX)
    (hv : 10 ^ (e - b + 1) ≤ |v|) :
    (show_fix_to mem v d b e fill).1 = false ∧
    (∀ k : Nat, k ≤ e - b →
      (show_fix_to mem v d b e fill).2 ((e : Int) - k) =
        (if d ≠ 0 ∧ k = d then c_digits_at (|v| / 10 ^ k % 10) ||| SIGN_DP
         else c_digits_at (|v| / 10 ^ k % 10)) ∧
      (show_fix_to mem v d b e fill).2 ((e : Int) - k) ≠ SIGN_MINUS) ∧
    ((show_int_to mem 12345 0 3 fill).1 = false ∧
      frame (show_int_to mem 12345 0 3 fill).2 = [DIGIT_2, DIGIT_3, DIGIT_4, DIGIT_5]) := by
  have key : ∀ (v : Int) (d b e : Nat), b ≤ e → INT_MIN < v → 10 ^ (e - b + 1) ≤ |v| →
      ∀ k : Nat, k ≤ e - b →
      (show_fix_to mem v d b e fill).2 ((e : Int) - k) =
        (if d ≠ 0 ∧ k = d then c_digits_at (|v| / 10 ^ k % 10) ||| SIGN_DP
         else c_digits_at (|v| / 10 ^ k % 10)) := by
    intro v d b e hb hlo hv k hk
    have hpow : (10 : Int) ^ k ≤ 10 ^ (e - b + 1) :=
      pow_le_pow_right₀ (by norm_num) (by omega)
    have hge : (10 : Int) ^ k ≤ |v| := le_trans hpow hv
    rw [show_fix_to_cell_digit mem v d b e fill k hlo hb hk
      (fun hx => absurd hx.2.1 (not_lt_of_le hge))]
    unfold digit_cell
    rw [if_pos (Or.inr hge)]
  have flag : ∀ (v : Int) (d b e : Nat), b ≤ e → INT_MIN < v → 10 ^ (e - b + 1) ≤ |v| →
      (show_fix_to mem v d b e fill).1 = false := by
    intro v d b e hb hlo hv
    have hpow : (10 : Int) ^ (e - b) ≤ 10 ^ (e - b + 1) :=
      pow_le_pow_right₀ (by norm_num) (by omega)
    have hnot : ¬ (show_fix_to mem v d b e fill).1 = true := by
      rw [show_fix_to_flag mem v d b e fill hlo hb]
      rintro (h | h)
      · rw [abs_of_nonneg h.1] at hv
        exact absurd h.2 (not_lt_of_le hv)
      · exact absurd h.2.1 (not_lt_of_le (le_trans hpow hv))
    simpa using hnot
  refine ⟨flag v d b e hb hlo hv, ?_, ?_⟩
  · intro k hk
    have hc := key v d b e hb hlo hv k hk
    refine ⟨hc, ?_⟩
    rw [hc]
    have hm := c_digits_at_ne_minus (|v| / 10 ^ k)
    split_ifs
    · exact hm.2
    · exact hm.1
  · have hlo1 : INT_MIN < (12345 : Int) := by decide
    have hv1 : (10 : Int) ^ (3 - 0 + 1) ≤ |(12345 : Int)| := by norm_num
    refine ⟨flag 12345 0 0 3 (by decide) hlo1 hv1, ?_⟩
    have c0 := key 12345 0 0 3 (by decide) hlo1 hv1 0 (by decide)
    have c1 := key 12345 0 0 3 (by decide) hlo1 hv1 1 (by decide)
    have c2 := key 12345 0 0 3 (by decide) hlo1 hv1 2 (by decide)
    have c3 := key 12345 0 0 3 (by decide) hlo1 hv1 3 (by decide)
    norm_num at c0 c1 c2 c3
    unfold show_int_to frame
    rw [c0, c1, c2, c3]
    rfl

theorem show_fix_to_layout_overflow_witness :
    (0 ≤ 3 ∧ 3 ≤ 3 ∧ INT_MIN < (-12345 : Int) ∧ (-12345 : Int) ≤ INT_MAX ∧
      (10 : Int) ^ (3 - 0 + 1) ≤ |(-12345 : Int)|) ∧
    (show_fix_to (Mem.ofCells 1 1 1 1) (-12345) 2 0 3 0).1 = false ∧
    frame (show_fix_to (Mem.ofCells 1 1 1 1) (-12345) 2 0 3 0).2 =
      [DIGIT_2, DIGIT_3 ||| SIGN_DP, DIGIT_4, DIGIT_5] :=
  ⟨by decide,
   (show_fix_to_layout_overflow (Mem.ofCells 1 1 1 1) (-12345) 2 0 3 0 (by decide)
      (by decide) (by decide) (by decide) (by decide)).1,
   by decide⟩

theorem show_fix_to_negative_cells (mem : Mem) (v : Int) (d b e fill L : Nat)
    (hb : b ≤ e) (he : e ≤ 3) (hd : (b : Int) < (e : Int) - (d : Int)) (hneg : v < 0)
    (hv : |v| < 10 ^ (e - b)) (hL : L = max (numberOfDecimalDigits v.natAbs) (d + 1)) :
    (show_fix_to mem v d b e fill).1 = true ∧
    (b : Int) ≤ (e : Int) - (L : Int) ∧
    (show_fix_to mem v d b e fill).2 ((e : Int) - (L : Int)) = SIGN_MINUS ∧
    (∀ j : Int, (b : Int) ≤ j → j < (e : Int) - (L : Int) →
      (show_fix_to mem v d b e fill).2 j = fill) ∧
    (∀ k : Nat, k < L →
      (show_fix_to mem v d b e fill).2 ((e : Int) - k) =
        (if d ≠ 0 ∧ k = d then c_digits_at (|v| / 10 ^ k % 10) ||| SIGN_DP
         else c_digits_at (|v| / 10 ^ k % 10)) ∧
      (show_fix_to mem v d b e fill).2 ((e : Int) - k) ≠ SIGN_MINUS) := by
  have hp3 : (10 : Int) ^ (e - b) ≤ 10 ^ 3 := pow_le_pow_right₀ (by norm_num) (by omega)
  have hlo : INT_MIN < v := by
    have h1 : |v| < 1000 := lt_of_lt_of_le hv (by simpa using hp3)
    rw [abs_of_neg hneg] at h1
    unfold INT_MIN
    omega
  have hC : ∀ j : Nat, (|v| < 10 ^ j ∧ d < j) ↔ L ≤ j := by
    intro j
    rw [abs_lt_pow_iff, hL]
    unfold numberOfDecimalDigits
    omega
  have hLle : L ≤ e - b := by
    have h1 := (abs_lt_pow_iff v (e - b)).mp hv
    rw [hL]
    unfold numberOfDecimalDigits
    omega
  have hCL := (hC L).mpr (le_refl L)
  refine ⟨(show_fix_to_flag mem v d b e fill hlo hb).mpr (Or.inr ⟨hneg, hv, hd⟩), by omega,
    ?_, ?_, ?_⟩
  · exact show_fix_to_cell_sign mem v d b e fill L hlo hb hLle hneg hCL.1 hCL.2
      (fun j hj hc => absurd ((hC j).mp hc) (by omega))
  · intro j hbj hjL
    have hj : j = (e : Int) - ((e - j.toNat : Nat) : Int) := by omega
    have hk : e - j.toNat ≤ e - b := by omega
    have hkL : L < e - j.toNat := by omega
    rw [hj, show_fix_to_cell_digit mem v d b e fill (e - j.toNat) hlo hb hk
      (fun hx => hx.2.2.2 L hkL hCL)]
    have hCk := (hC (e - j.toNat)).mpr (le_of_lt hkL)
    unfold digit_cell
    rw [if_neg (fun hx => by omega), if_neg]
    rintro (hx | hx)
    · omega
    · exact absurd hCk.1 (not_lt_of_le hx)
  · intro k hk
    have hnC : ¬ (|v| < 10 ^ k ∧ d < k) := fun hx => absurd ((hC k).mp hx) (by omega)
    have hc := show_fix_to_cell_digit mem v d b e fill k hlo hb (by omega)
      (fun hx => hnC ⟨hx.2.1, hx.2.2.1⟩)
    have hcell : (show_fix_to mem v d b e fill).2 ((e : Int) - k) =
        (if d ≠ 0 ∧ k = d then c_digits_at (|v| / 10 ^ k % 10) ||| SIGN_DP
         else c_digits_at (|v| / 10 ^ k % 10)) := by
      rw [hc]
      unfold digit_cell
      have hor : k ≤ d ∨ 10 ^ k ≤ |v| := by
        by_cases hkd : k ≤ d
        · exact Or.inl hkd
        · exact Or.inr (le_of_not_lt (fun hx => hnC ⟨hx, by omega⟩))
      rw [if_pos hor]
    refine ⟨hcell, ?_⟩
    rw [hcell]
    have hm := c_digits_at_ne_minus (|v| / 10 ^ k)
    split_ifs
    · exact hm.2
    · exact hm.1

/-- C4: for a range `0 <= begin <= end <= 3`, `decimals` with `begin < end - decimals` and a
value `v < 0` with `|v| < 10^(end-begin)`, `show_fix_to` returns true; with
`L = max(numberOfDecimalDigits(|v|), decimals+1)` the cell `p = end - L` lies in the range
and holds `SIGN_MINUS`, every cell `begin..p-1` holds the fill char, and every cell `end-k`
with `k < L` (the cells `p+1..end`) holds the image of the digit `(|v| / 10^k) % 10`, OR-ed
with `SIGN_DP` exactly when `decimals != 0` and `k = decimals`, and is not `SIGN_MINUS`; in
particular `v = -5`, `decimals = 1` on the range 0..3 returns true and gives fill,
`SIGN_MINUS`, `DIGIT_0|SIGN_DP`, `DIGIT_5`. -/
theorem show_fix_to_layout_negative (mem : Mem) (v : Int) (d b e fill L : Nat)
    (hb : b ≤ e) (he : e ≤ 3) (hd : (b : Int) < (e : Int) - (d : Int)) (hneg : v < 0)
    (hv : |v| < 10 ^ (e - b)) (hL : L = max (numberOfDecimalDigits v.natAbs) (d + 1)) :
    ((show_fix_to mem v d b e fill).1 = true ∧
    (b : Int) ≤ (e : Int) - (L : Int) ∧
    (show_fix_to mem v d b e fill).2 ((e : Int) - (L : Int)) = SIGN_MINUS ∧
    (∀ j : Int, (b : Int) ≤ j → j < (e : Int) - (L : Int) →
      (show_fix_to mem v d b e fill).2 j = fill) ∧
    (∀ k : Nat, k < L →
      (show_fix_to mem v d b e fill).2 ((e : Int) - k) =
        (if d ≠ 0 ∧ k = d then c_digits_at (|v| / 10 ^ k % 10) ||| SIGN_DP
         else c_digits_at (|v| / 10 ^ k % 10)) ∧
      (show_fix_to mem v d b e fill).2 ((e : Int) - k) ≠ SIGN_MINUS)) ∧
    ((show_fix_to mem (-5) 1 0 3 fill).1 = true ∧
      frame (show_fix_to mem (-5) 1 0 3 fill).2 =
        [fill, SIGN_MINUS, DIGIT_0 ||| SIGN_DP, DIGIT_5]) := by
  refine ⟨show_fix_to_negative_cells mem v d b e fill L hb he hd hneg hv hL, ?_⟩
  have hL5 : 2 = max (numberOfDecimalDigits (-5 : Int).natAbs) (1 + 1) := by
    have : (-5 : Int).natAbs = 5 := rfl
    rw [this]
    unfold numberOfDecimalDigits
    norm_num
  have h := show_fix_to_negative_cells mem (-5) 1 0 3 fill 2 (by decide) (by decide)
    (by decide) (by decide) (by norm_num) hL5
  obtain ⟨hflag, -, hsign, hfill, hdig⟩ := h
  refine ⟨hflag, ?_⟩
  have c0 := (hdig 0 (by decide)).1
  have c1 := (hdig 1 (by decide)).1
  have c3 := hfill 0 (by decide) (by decide)
  norm_num at c0 c1 hsign
  unfold frame
  rw [c0, c1, c3, hsign]
  rfl

theorem show_fix_to_layout_negative_witness :
    (0 ≤ 3 ∧ 3 ≤ 3 ∧ ((0 : Nat) : Int) < ((3 : Nat) : Int) - ((0 : Nat) : Int) ∧
      (-42 : Int) < 0 ∧ |(-42 : Int)| < 10 ^ (3 - 0)) ∧
    (show_fix_to (Mem.ofCells 1 1 1 1) (-42) 0 0 3 7).1 = true ∧
    frame (show_fix_to (Mem.ofCells 1 1 1 1) (-42) 0 0 3 7).2 =
      [7, SIGN_MINUS, DIGIT_4, DIGIT_2] :=
  ⟨by decide,
   (show_fix_to_layout_negative (Mem.ofCells 1 1 1 1) (-42) 0 0 3 7 2 (by decide)
      (by decide) (by decide) (by decide) (by decide)
      (by unfold numberOfDecimalDigits; norm_num)).1.1,
   by decide⟩

/-- C5: for a range `0 <= begin <= end <= 3`, an `int` value other than the most negative
one and a fill char whose `SIGN_DP` bit is clear: when `decimals >= 1` and
`begin <= end - decimals`, the cell `end - decimals` holds the image of the digit
`(|v| / 10^decimals) % 10` OR-ed with `SIGN_DP` (so it has the `SIGN_DP` bit set and is
neither the fill char nor the minus sign) and no other cell of `begin..end` has the
`SIGN_DP` bit set; when `decimals = 0`, no cell of `begin..end` has the `SIGN_DP` bit set. -/
theorem show_fix_to_decimal_point (mem : Mem) (v : Int) (d b e fill : Nat)
    (hb : b ≤ e) (he : e ≤ 3) (hlo : INT_MIN < v) (hhi : v ≤ INT_MAX)
    (hfill : fill &&& SIGN_DP = 0) :
    (1 ≤ d → (b : Int) ≤ (e : Int) - (d : Int) →
      (show_fix_to mem v d b e fill).2 ((e : Int) - (d : Int)) =
        c_digits_at (|v| / 10 ^ d % 10) ||| SIGN_DP ∧
      (show_fix_to mem v d b e fill).2 ((e : Int) - (d : Int)) &&& SIGN_DP ≠ 0 ∧
      (show_fix_to mem v d b e fill).2 ((e : Int) - (d : Int)) ≠ fill ∧
      (show_fix_to mem v d b e fill).2 ((e : Int) - (d : Int)) ≠ SIGN_MINUS ∧
      ∀ j : Int, (b : Int) ≤ j → j ≤ (e : Int) → j ≠ (e : Int) - (d : Int) →
        (show_fix_to mem v d b e fill).2 j &&& SIGN_DP = 0) ∧
    (∀ j : Int, (b : Int) ≤ j → j ≤ (e : Int) →
      (show_fix_to mem v 0 b e fill).2 j &&& SIGN_DP = 0) := by
  constructor
  · intro hd hbd
    have hcell : (show_fix_to mem v d b e fill).2 ((e : Int) - (d : Int)) =
        c_digits_at (|v| / 10 ^ d % 10) ||| SIGN_DP := by
      rw [show_fix_to_cell_digit mem v d b e fill d hlo hb (by omega)
        (fun hx => absurd hx.2.2.1 (lt_irrefl d))]
      unfold digit_cell
      rw [if_pos ⟨by omega, rfl⟩]
    have hset := c_digits_at_dp_set (|v| / 10 ^ d)
    refine ⟨hcell, ?_, ?_, ?_, ?_⟩
    · rw [hcell]
      exact hset
    · rw [hcell]
      intro hx
      rw [hx] at hset
      exact hset hfill
    · rw [hcell]
      exact (c_digits_at_ne_minus (|v| / 10 ^ d)).2
    · intro j hbj hje hjd
      exact show_fix_to_dp_clear mem v d b e fill hlo hb hfill j hbj hje (Or.inr hjd)
  · intro j hbj hje
    exact show_fix_to_dp_clear mem v 0 b e fill hlo hb hfill j hbj hje (Or.inl rfl)

theorem show_fix_to_decimal_point_witness :
    (0 ≤ 3 ∧ 3 ≤ 3 ∧ INT_MIN < (-5 : Int) ∧ (-5 : Int) ≤ INT_MAX ∧ 0 &&& SIGN_DP = 0) ∧
    (show_fix_to (Mem.ofCells 1 1 1 1) (-5) 1 0 3 0).2 (((3 : Nat) : Int) - ((1 : Nat) : Int))
      = c_digits_at (|(-5 : Int)| / 10 ^ 1 % 10) ||| SIGN_DP ∧
    frame (show_fix_to (Mem.ofCells 1 1 1 1) (-5) 1 0 3 0).2 =
      [0, SIGN_MINUS, DIGIT_0 ||| SIGN_DP, DIGIT_5] :=
  ⟨by decide,
   ((show_fix_to_decimal_point (Mem.ofCells 1 1 1 1) (-5) 1 0 3 0 (by decide) (by decide)
      (by decide) (by decide) (by decide)).1 (by decide) (by decide)).1,
   by decide⟩

/-! ## Round trip of the integer formatter -/

theorem c_digits_inv_at (x : Nat) (hx : x < 10) :
    c_digits_inv (c_digits_at (x : Int)) = some x ∧ c_digits_at (x : Int) ≠ EMPTY ∧
      c_digits_at (x : Int) ≠ SIGN_MINUS := by
  rw [c_digits_at_ofNat]
  interval_cases x <;> decide

theorem parse_cells_one (a : Nat) (ha : a < 10) :
    parse_cells [EMPTY, EMPTY, EMPTY, c_digits_at (a : Int)] = some (a : Int) := by
  obtain ⟨ia, na, ma⟩ := c_digits_inv_at a ha
  simp [parse_cells, parse_digits, List.dropWhile, ia, na, ma]

theorem parse_cells_two (a b : Nat) (ha : a < 10) (hb : b < 10) :
    parse_cells [EMPTY, EMPTY, c_digits_at (a : Int), c_digits_at (b : Int)] =
      some ((10 * a + b : Nat) : Int) := by
  obtain ⟨ia, na, ma⟩ := c_digits_inv_at a ha
  obtain ⟨ib, -, -⟩ := c_digits_inv_at b hb
  simp [parse_cells, parse_digits, List.dropWhile, ia, na, ma, ib]

theorem parse_cells_three (a b c : Nat) (ha : a < 10) (hb : b < 10) (hc : c < 10) :
    parse_cells [EMPTY, c_digits_at (a : Int), c_digits_at (b : Int), c_digits_at (c : Int)] =
      some ((10 * (10 * a + b) + c : Nat) : Int) := by
  obtain ⟨ia, na, ma⟩ := c_digits_inv_at a ha
  obtain ⟨ib, -, -⟩ := c_digits_inv_at b hb
  obtain ⟨ic, -, -⟩ := c_digits_inv_at c hc
  simp [parse_cells, parse_digits, List.dropWhile, ia, na, ma, ib, ic]

theorem parse_cells_four (a b c e : Nat) (ha : a < 10) (hb : b < 10) (hc : c < 10)
    (he : e < 10) :
    parse_cells [c_digits_at (a : Int), c_digits_at (b : Int), c_digits_at (c : Int),
        c_digits_at (e : Int)] =
      some ((10 * (10 * (10 * a + b) + c) + e : Nat) : Int) := by
  obtain ⟨ia, na, ma⟩ := c_digits_inv_at a ha
  obtain ⟨ib, -, -⟩ := c_digits_inv_at b hb
  obtain ⟨ic, -, -⟩ := c_digits_inv_at c hc
  obtain ⟨ie, -, -⟩ := c_digits_inv_at e he
  simp [parse_cells, parse_digits, List.dropWhile, ia, na, ma, ib, ic, ie]

theorem parse_cells_minus_one (a : Nat) (ha : a < 10) :
    parse_cells [EMPTY, EMPTY, SIGN_MINUS, c_digits_at (a : Int)] = some (-(a : Int)) := by
  obtain ⟨ia, -, -⟩ := c_digits_inv_at a ha
  have hm : SIGN_MINUS ≠ EMPTY := by decide
  simp [parse_cells, parse_digits, List.dropWhile, ia, hm]

theorem parse_cells_minus_two (a b : Nat) (ha : a < 10) (hb : b < 10) :
    parse_cells [EMPTY, SIGN_MINUS, c_digits_at (a : Int), c_digits_at (b : Int)] =
      some (-((10 * a + b : Nat) : Int)) := by
  obtain ⟨ia, -, -⟩ := c_digits_inv_at a ha
  obtain ⟨ib, -, -⟩ := c_digits_inv_at b hb
  have hm : SIGN_MINUS ≠ EMPTY := by decide
  simp [parse_cells, parse_digits, List.dropWhile, ia, ib, hm]

theorem parse_cells_minus_three (a b c : Nat) (ha : a < 10) (hb : b < 10) (hc : c < 10) :
    parse_cells [SIGN_MINUS, c_digits_at (a : Int), c_digits_at (b : Int),
        c_digits_at (c : Int)] =
      some (-((10 * (10 * a + b) + c : Nat) : Int)) := by
  obtain ⟨ia, -, -⟩ := c_digits_inv_at a ha
  obtain ⟨ib, -, -⟩ := c_digits_inv_at b hb
  obtain ⟨ic, -, -⟩ := c_digits_inv_at c hc
  have hm : SIGN_MINUS ≠ EMPTY := by decide
  simp [parse_cells, parse_digits, List.dropWhile, ia, ib, ic, hm]

theorem show_int_to_frame_nonneg (mem : Mem) (v : Int) (h0 : 0 ≤ v) :
    frame (show_int_to mem v 0 3 EMPTY).2 =
      [digit_cell v 0 EMPTY 3, digit_cell v 0 EMPTY 2, digit_cell v 0 EMPTY 1,
        digit_cell v 0 EMPTY 0] := by
  have hlo : INT_MIN < v := lt_of_lt_of_le (by decide) h0
  have c0 := show_fix_to_cell_digit mem v 0 0 3 EMPTY 0 hlo (by decide) (by decide)
    (fun hx => by omega)
  have c1 := show_fix_to_cell_digit mem v 0 0 3 EMPTY 1 hlo (by decide) (by decide)
    (fun hx => by omega)
  have c2 := show_fix_to_cell_digit mem v 0 0 3 EMPTY 2 hlo (by decide) (by decide)
    (fun hx => by omega)
  have c3 := show_fix_to_cell_digit mem v 0 0 3 EMPTY 3 hlo (by decide) (by decide)
    (fun hx => by omega)
  rw [abs_of_nonneg h0] at c0 c1 c2 c3
  norm_num at c0 c1 c2 c3
  unfold show_int_to frame
  rw [c0, c1, c2, c3]

theorem parse_show_int_nonneg (mem : Mem) (v : Int) (h0 : 0 ≤ v) (hhi : v ≤ 9999) :
    parse_cells (frame (show_int_to mem v 0 3 EMPTY).2) = some v := by
  rw [show_int_to_frame_nonneg mem v h0]
  obtain ⟨x0, hx0, hy0⟩ := emod_ten_cases (v / 10 ^ 0)
  obtain ⟨x1, hx1, hy1⟩ := emod_ten_cases (v / 10 ^ 1)
  obtain ⟨x2, hx2, hy2⟩ := emod_ten_cases (v / 10 ^ 2)
  obtain ⟨x3, hx3, hy3⟩ := emod_ten_cases (v / 10 ^ 3)
  unfold digit_cell
  rw [hy0, hy1, hy2, hy3]
  norm_num at hy0 hy1 hy2 hy3
  by_cases h1 : (10 : Int) ^ 1 ≤ v
  · by_cases h2 : (10 : Int) ^ 2 ≤ v
    · by_cases h3 : (10 : Int) ^ 3 ≤ v
      · simp only [h1, h2, h3]
        norm_num
        rw [parse_cells_four x3 x2 x1 x0 hx3 hx2 hx1 hx0]
        congr 1
        omega
      · simp only [h1, h2, h3]
        norm_num
        rw [parse_cells_three x2 x1 x0 hx2 hx1 hx0]
        congr 1
        norm_num at h3
        omega
    · have h3 : ¬ (10 : Int) ^ 3 ≤ v := by
        norm_num at h2 ⊢
        omega
      simp only [h1, h2, h3]
      norm_num
      rw [parse_cells_two x1 x0 hx1 hx0]
      congr 1
      norm_num at h2
      omega
  · have h2 : ¬ (10 : Int) ^ 2 ≤ v := by
      norm_num at h1 ⊢
      omega
    have h3 : ¬ (10 : Int) ^ 3 ≤ v := by
      norm_num at h1 ⊢
      omega
    simp only [h1, h2, h3]
    norm_num
    rw [parse_cells_one x0 hx0]
    congr 1
    norm_num at h1
    omega

theorem parse_show_int_neg (mem : Mem) (v : Int) (hlo : -999 ≤ v) (hneg : v < 0) :
    parse_cells (frame (show_int_to mem v 0 3 EMPTY).2) = some v := by
  have habs : |v| = -v := abs_of_neg hneg
  have hv : |v| < 10 ^ (3 - 0) := by
    rw [habs]
    norm_num
    omega
  have hL := fun j : Nat => abs_lt_pow_iff v j
  have hL0 := hL 0
  have hL1 := hL 1
  have hL2 := hL 2
  have hL3 := hL 3
  rw [habs] at hL0 hL1 hL2 hL3
  norm_num at hL0 hL1 hL2 hL3
  obtain ⟨x0, hx0, hy0⟩ := emod_ten_cases (|v| / 10 ^ 0)
  obtain ⟨x1, hx1, hy1⟩ := emod_ten_cases (|v| / 10 ^ 1)
  obtain ⟨x2, hx2, hy2⟩ := emod_ten_cases (|v| / 10 ^ 2)
  have cells := fun L hL => show_fix_to_negative_cells mem v 0 0 3 EMPTY L (by decide)
    (by decide) (by decide) hneg hv hL
  have hlen : numberOfDecimalDigits v.natAbs = (Nat.digits 10 v.natAbs).length := rfl
  unfold show_int_to frame
  by_cases h1 : -v < 10
  · obtain ⟨-, -, hsign, hfill, hdig⟩ := cells 1 (by rw [hlen]; omega)
    have c0 := (hdig 0 (by decide)).1
    have f0 := hfill 0 (by decide) (by decide)
    have f1 := hfill 1 (by decide) (by decide)
    norm_num at c0 hsign
    rw [c0, f0, f1, hsign]
    norm_num at hy0
    rw [hy0, parse_cells_minus_one x0 hx0]
    congr 1
    rw [habs] at hy0
    omega
  · by_cases h2 : -v < 100
    · obtain ⟨-, -, hsign, hfill, hdig⟩ := cells 2 (by rw [hlen]; omega)
      have c0 := (hdig 0 (by decide)).1
      have c1 := (hdig 1 (by decide)).1
      have f0 := hfill 0 (by decide) (by decide)
      norm_num at c0 c1 hsign
      rw [c0, c1, f0, hsign]
      norm_num at hy0 hy1
      rw [hy0, hy1, parse_cells_minus_two x1 x0 hx1 hx0]
      congr 1
      rw [habs] at hy0 hy1
      push_cast
      omega
    · obtain ⟨-, -, hsign, -, hdig⟩ := cells 3 (by rw [hlen]; omega)
      have c0 := (hdig 0 (by decide)).1
      have c1 := (hdig 1 (by decide)).1
      have c2 := (hdig 2 (by decide)).1
      norm_num at c0 c1 c2 hsign
      rw [c0, c1, c2, hsign]
      norm_num at hy0 hy1 hy2
      rw [hy0, hy1, hy2, parse_cells_minus_three x2 x1 x0 hx2 hx1 hx0]
      congr 1
      rw [habs] at hy0 hy1 hy2
      push_cast
      omega

theorem parse_show_int (mem : Mem) (v : Int) (hlo : -999 ≤ v) (hhi : v ≤ 9999) :
    parse_cells (frame (show_int_to mem v 0 3 EMPTY).2) = some v := by
  rcases lt_or_le v 0 with hneg | hpos
  · exact parse_show_int_neg mem v hlo hneg
  · exact parse_show_int_nonneg mem v hpos hhi

/-- C6: with no decimals, the range 0..3 and the blank fill char, for every integer
`-999 <= v <= 9999`, `show_int_to` returns true and the inverse parser (skip the leading
blank cells, accept one optional `SIGN_MINUS` cell, read the remaining cells through the
inverse of `c_digits` as a base-10 numeral) applied to the four written cells returns `v`;
hence two values of that range that give the same four cells are equal. -/
theorem show_int_to_round_trip (mem : Mem) (v : Int) (hlo : -999 ≤ v) (hhi : v ≤ 9999) :
    (show_int_to mem v 0 3 EMPTY).1 = true ∧
    parse_cells (frame (show_int_to mem v 0 3 EMPTY).2) = some v ∧
    (∀ (mem2 : Mem) (w : Int), -999 ≤ w → w ≤ 9999 →
      frame (show_int_to mem v 0 3 EMPTY).2 = frame (show_int_to mem2 w 0 3 EMPTY).2 →
      v = w) := by
  refine ⟨?_, parse_show_int mem v hlo hhi, ?_⟩
  · unfold show_int_to
    rw [show_fix_to_flag mem v 0 0 3 EMPTY (lt_of_lt_of_le (by decide) hlo) (by decide)]
    rcases lt_or_le v 0 with hneg | hpos
    · refine Or.inr ⟨hneg, ?_, by decide⟩
      rw [abs_of_neg hneg]
      norm_num
      omega
    · refine Or.inl ⟨hpos, ?_⟩
      norm_num
      omega
  · intro mem2 w hwlo hwhi heq
    have h1 := parse_show_int mem v hlo hhi
    have h2 := parse_show_int mem2 w hwlo hwhi
    rw [heq, h2] at h1
    exact (Option.some.inj h1).symm

theorem show_int_to_round_trip_witness :
    (-999 ≤ (-37 : Int) ∧ (-37 : Int) ≤ 9999) ∧
    (show_int_to (Mem.ofCells 1 1 1 1) (-37) 0 3 EMPTY).1 = true ∧
    parse_cells (frame (show_int_to (Mem.ofCells 1 1 1 1) (-37) 0 3 EMPTY).2) = some (-37) :=
  ⟨by decide,
   (show_int_to_round_trip (Mem.ofCells 1 1 1 1) (-37) (by decide) (by decide)).1,
   (show_int_to_round_trip (Mem.ofCells 1 1 1 1) (-37) (by decide) (by decide)).2.1⟩

/-! ## Animation -/

theorem anim_apply_brightness_indicator (br : Int) (s : Driver) :
    (anim_apply_brightness br s).g_indicator = s.g_indicator := by
  unfold anim_apply_brightness set_brightness
  split_ifs <;> rfl

theorem anim_goleft_come_frame (mem : Mem) (last_mem : Int) (sd : Nat) (s : Driver) :
    frame (anim_goleft_come mem last_mem sd 4 0 s).g_indicator =
      [if last_mem - 3 + 0 < 0 then 0 else mem (last_mem - 3 + 0),
       if last_mem - 3 + 1 < 0 then 0 else mem (last_mem - 3 + 1),
       if last_mem - 3 + 2 < 0 then 0 else mem (last_mem - 3 + 2),
       if last_mem - 3 + 3 < 0 then 0 else mem (last_mem - 3 + 3)] := by
  simp [anim_goleft_come, anim_goleft_row, delay, frame, Mem.write]

/-- C7 (evaluation at the failing input): for the new value `DIGIT_1`, blank, blank, blank the
leftward animation ends with the live buffer blank, blank, blank, `DIGIT_1`, which is not
the new value. -/
theorem anim_goleft_not_on_target (sd : Nat) (br : Int) (s : Driver) :
    frame (anim (Mem.ofCells DIGIT_1 0 0 0) anim_t.ANIM_GOLEFT sd br s).g_indicator =
      [0, 0, 0, DIGIT_1] ∧
    frame (anim (Mem.ofCells DIGIT_1 0 0 0) anim_t.ANIM_GOLEFT sd br s).g_indicator ≠
      frame (Mem.ofCells DIGIT_1 0 0 0) := by
  have h : frame (anim (Mem.ofCells DIGIT_1 0 0 0) anim_t.ANIM_GOLEFT sd br s).g_indicator =
      [0, 0, 0, DIGIT_1] := by
    simp only [anim]
    rw [anim_goleft_come_frame]
    decide
  rw [h]
  exact ⟨rfl, by decide⟩

theorem indicator_is_clear_iff (s : Driver) :
    indicator_is_clear s = true ↔
      s.g_indicator 0 = 0 ∧ s.g_indicator 1 = 0 ∧ s.g_indicator 2 = 0 ∧ s.g_indicator 3 = 0 := by
  simp [indicator_is_clear]

theorem anim_goright_leave_clear (sd : Nat) (s : Driver) :
    indicator_is_clear (anim_goright_leave sd 4 s) = true := by
  simp only [anim_goright_leave]
  split_ifs with h1 h2 h3 h4
  · exact h1
  · exact h2
  · exact h3
  · exact h4
  · simp [indicator_is_clear_iff, indicator_is_clear, delay, Mem.write] at *

theorem anim_goright_come_frame (mem : Mem) (sd : Nat) (s : Driver)
    (hs : indicator_is_clear s = true) :
    frame (anim_goright_come mem (anim_find_first mem 4 0) sd
      (4 - anim_find_first mem 4 0).toNat 0 s).g_indicator = frame mem := by
  rw [indicator_is_clear_iff] at hs
  obtain ⟨g0, g1, g2, g3⟩ := hs
  by_cases m0 : mem 0 = 0
  · by_cases m1 : mem 1 = 0
    · by_cases m2 : mem 2 = 0
      · by_cases m3 : mem 3 = 0
        · simp [anim_find_first, anim_goright_come, anim_goright_row, delay, frame,
            Mem.write, m0, m1, m2, m3, g0, g1, g2, g3]
        · simp [anim_find_first, anim_goright_come, anim_goright_row, delay, frame,
            Mem.write, m0, m1, m2, m3, g0, g1, g2, g3]
      · simp [anim_find_first, anim_goright_come, anim_goright_row, delay, frame,
          Mem.write, m0, m1, m2, g0, g1, g2, g3]
    · simp [anim_find_first, anim_goright_come, anim_goright_row, delay, frame,
        Mem.write, m0, m1, g0, g1, g2, g3]
  · simp [anim_find_first, anim_goright_come, anim_goright_row, delay, frame,
      Mem.write, m0, g0, g1, g2, g3]

/-- C8: for every initial content of the live buffer (every state of the driver) and every
new value, after `anim(mem, ANIM_GORIGHT, step_delay, brightness)` the four cells of the
live buffer equal the four cells of the new value; with an all-blank new value the
arriving loop makes no pass (the log of delays is that of the leaving loop alone). -/
theorem anim_goright_ends_on_target (mem : Mem) (sd : Nat) (br : Int) (s : Driver) :
    frame (anim mem anim_t.ANIM_GORIGHT sd br s).g_indicator = frame mem ∧
    (anim (Mem.ofCells 0 0 0 0) anim_t.ANIM_GORIGHT sd br s).delays =
      (anim_goright_leave sd 4 s).delays := by
  constructor
  · simp only [anim]
    apply anim_goright_come_frame
    rw [indicator_is_clear_iff, anim_apply_brightness_indicator, ← indicator_is_clear_iff]
    exact anim_goright_leave_clear sd s
  · have hf : anim_find_first (Mem.ofCells 0 0 0 0) 4 0 = 4 := by decide
    have hd : ∀ t : Driver, (anim_apply_brightness br t).delays = t.delays := by
      intro t
      unfold anim_apply_brightness set_brightness
      split_ifs <;> rfl
    simp only [anim]
    rw [hf]
    simp [anim_goright_come, hd]

theorem anim_vertical_come_frame (take : Nat → Nat → Nat) (mem : Mem) (sd : Nat)
    (s : Driver) :
    frame (anim_vertical_come take mem sd 3 1 s).g_indicator =
      [take (mem 0) 3, take (mem 1) 3, take (mem 2) 3, take (mem 3) 3] := by
  simp [anim_vertical_come, anim_map_cells, delay, frame, Mem.write]

theorem anim_take_from_above_last (d : Nat) : anim_take_from_above d 3 = d := rfl

theorem anim_take_from_bottom_last (d : Nat) : anim_take_from_bottom d 3 = d := rfl

/-- C9: the last receive step (step 3) of `anim_take_from_above` and of
`anim_take_from_bottom` returns every pattern unchanged, and so for every initial content of
the live buffer and every new value, after `anim` with kind `ANIM_GOUP` or `ANIM_GODOWN`
the four cells of the live buffer equal the four cells of the new value. -/
theorem anim_vertical_ends_on_target (mem : Mem) (sd : Nat) (br : Int) (s : Driver) :
    (∀ d : Nat, anim_take_from_above d 3 = d ∧ anim_take_from_bottom d 3 = d) ∧
    frame (anim mem anim_t.ANIM_GOUP sd br s).g_indicator = frame mem ∧
    frame (anim mem anim_t.ANIM_GODOWN sd br s).g_indicator = frame mem := by
  refine ⟨fun d => ⟨anim_take_from_above_last d, anim_take_from_bottom_last d⟩, ?_, ?_⟩
  · simp only [anim]
    rw [anim_vertical_come_frame]
    simp only [anim_take_from_above_last, frame]
  · simp only [anim]
    rw [anim_vertical_come_frame]
    simp only [anim_take_from_bottom_last, frame]

/-- C10 (as stated, refuted): two applications of the send remap do not blank every
pattern: the low bar `0b00010000` sent up twice is the high bar, and the high bar
`0b01000000` sent down twice is the low bar. -/
theorem anim_send_twice_not_blank :
    anim_send_up (anim_send_up 0b00010000) ≠ 0 ∧
    anim_send_down (anim_send_down 0b01000000) ≠ 0 := by
  decide

theorem anim_send_up_bits (d : Nat) :
    anim_send_up d = send_bits (decide (d &&& 0b00100000 ≠ 0)) (decide (d &&& 0b00010000 ≠ 0))
      (decide (d &&& 0b00000100 ≠ 0)) (decide (d &&& 0b00000010 ≠ 0))
      0b10000000 0b00000010 0b00000001 0b01000000 := by
  by_cases h1 : d &&& 0b00100000 = 0 <;> by_cases h2 : d &&& 0b00010000 = 0 <;>
    by_cases h3 : d &&& 0b00000100 = 0 <;> by_cases h4 : d &&& 0b00000010 = 0 <;>
    simp [anim_send_up, send_bits, h1, h2, h3, h4]

theorem anim_send_down_bits (d : Nat) :
    anim_send_down d = send_bits (decide (d &&& 0b10000000 ≠ 0))
      (decide (d &&& 0b01000000 ≠ 0)) (decide (d &&& 0b00000010 ≠ 0))
      (decide (d &&& 0b00000001 ≠ 0)) 0b00100000 0b00000010 0b00010000 0b00000100 := by
  by_cases h1 : d &&& 0b10000000 = 0 <;> by_cases h2 : d &&& 0b01000000 = 0 <;>
    by_cases h3 : d &&& 0b00000010 = 0 <;> by_cases h4 : d &&& 0b00000001 = 0 <;>
    simp [anim_send_down, send_bits, h1, h2, h3, h4, -Nat.and_one_is_mod]

theorem anim_send_up_of_bits : ∀ b1 b2 b3 b4 : Bool,
    anim_send_up (send_bits b1 b2 b3 b4 0b10000000 0b00000010 0b00000001 0b01000000) =
      if b2 = true then 0b01000000 else 0 := by
  decide

theorem anim_send_down_of_bits : ∀ b1 b2 b3 b4 : Bool,
    anim_send_down (send_bits b1 b2 b3 b4 0b00100000 0b00000010 0b00010000 0b00000100) =
      if b2 = true then 0b00010000 else 0 := by
  decide

/-- C10 (amended): two applications of `anim_send_up` leave exactly the segment A
(`0b01000000`) when the pattern has the segment D (`0b00010000`) and give 0 otherwise;
two applications of `anim_send_down` leave exactly the segment D when the pattern has the
segment A and give 0 otherwise. -/
theorem anim_send_twice_eq (d : Nat) :
    anim_send_up (anim_send_up d) = (if d &&& 0b00010000 ≠ 0 then 0b01000000 else 0) ∧
    anim_send_down (anim_send_down d) = (if d &&& 0b01000000 ≠ 0 then 0b00010000 else 0) := by
  constructor
  · rw [anim_send_up_bits d, anim_send_up_of_bits]
    simp only [decide_eq_true_eq]
  · rw [anim_send_down_bits d, anim_send_down_of_bits]
    simp only [decide_eq_true_eq]

/-! ## Plain copy, brightness, digit table, single-cell writes -/

theorem anim_map_cells_id_frame (mem g : Mem) :
    frame (anim_map_cells (fun d => d) mem 4 0 g) = frame mem := by
  simp [anim_map_cells, frame, Mem.write]

/-- C12: for every state of the driver, every new value, every `step_delay` and every
`brightness` argument, `anim(mem, ANIM_NO, step_delay, brightness)` leaves the four cells of
the live buffer equal to those of the new value, adds no entry to the log of delays (no
intermediate frame, no delay step) and leaves the brightness level, the multiplex counter
and the port and timer registers unchanged. -/
theorem anim_no_is_copy (mem : Mem) (sd : Nat) (br : Int) (s : Driver) :
    frame (anim mem anim_t.ANIM_NO sd br s).g_indicator = frame mem ∧
    (anim mem anim_t.ANIM_NO sd br s).delays = s.delays ∧
    (anim mem anim_t.ANIM_NO sd br s).g_brightness = s.g_brightness ∧
    (anim mem anim_t.ANIM_NO sd br s).g_indicator_i = s.g_indicator_i ∧
    (anim mem anim_t.ANIM_NO sd br s).PORTB = s.PORTB ∧
    (anim mem anim_t.ANIM_NO sd br s).PORTC = s.PORTC ∧
    (anim mem anim_t.ANIM_NO sd br s).TCCR2B = s.TCCR2B := by
  refine ⟨?_, rfl, rfl, rfl, rfl, rfl, rfl⟩
  simp only [anim]
  exact anim_map_cells_id_frame mem s.g_indicator

/-- C13: `c_max_brightness` is 3, the number of on/off divider pairs minus one, and for
every input `b` (in particular every `int8_t`) `get_brightness()` after `set_brightness(b)`
is 0 when `b < 0`, 3 when `b > 3` and `b` itself otherwise. -/
theorem set_brightness_clamps (b : Int) (s : Driver) :
    c_max_brightness = 3 ∧
    c_max_brightness = c_indicator_prescalers_on.length - 1 ∧
    c_indicator_prescalers_on.length = c_indicator_prescalers_off.length ∧
    get_brightness (set_brightness b s) = (if b < 0 then 0 else if b > 3 then 3 else b) := by
  refine ⟨rfl, rfl, rfl, ?_⟩
  have h3 : (c_max_brightness : Int) = 3 := rfl
  unfold get_brightness set_brightness wrap_int8
  simp only [h3]
  split_ifs <;> omega

/-- C16: the table `c_digits` has ten entries; for every digit `d` the entry `c_digits[d]`
is the pattern with exactly the bits of the standard seven-segment glyph of `d` under the
layout bit7=F, bit6=A, bit5=E, bit4=D, bit3=Dp, bit2=C, bit1=G, bit0=B (a segment bit is set
if and only if the segment belongs to the glyph) and has the decimal-point bit clear; the
ten patterns are pairwise distinct and differ from `EMPTY` and from `SIGN_MINUS`. -/
theorem c_digits_standard_glyphs :
    c_digits.length = 10 ∧
    (∀ d : Fin 10, c_digits.getD d.val 0 = encode_segments (standard_glyph d.val)) ∧
    (∀ d : Fin 10, ∀ sg ∈ Segment.all,
      (c_digits.getD d.val 0).testBit sg.bit = decide (sg ∈ standard_glyph d.val)) ∧
    (∀ d : Fin 10, c_digits.getD d.val 0 &&& SIGN_DP = 0) ∧
    c_digits.Nodup ∧ EMPTY ∉ c_digits ∧ SIGN_MINUS ∉ c_digits := by
  refine ⟨rfl, ?_, ?_, ?_, ?_, ?_, ?_⟩ <;> decide

/-- C17: single-cell writes ignore an out-of-range position. For every pattern `d` and every
`place`: when `place <= 3`, `show_to(mem, d, place)` and `show(d, place)` put `d` in cell
`place` and leave every other cell as it was; when `place > 3` they leave the buffer (and
the whole driver state) unchanged. For the 1-based class variant: when `1 <= dig_n <= 4`,
`memprint(mem, d, dig_n)` and `print(d, dig_n)` put `d` in cell `dig_n - 1` and leave every
other cell as it was; when `dig_n = 0` or `dig_n > 4` they leave the buffer unchanged. -/
theorem single_cell_write (mem : Mem) (d place dig_n : Nat) (s : Driver) (t : indicator_t) :
    (place ≤ 3 →
      show_to_place mem d place (place : Int) = d ∧
      (∀ k : Int, k ≠ (place : Int) → show_to_place mem d place k = mem k) ∧
      (show_place d place s).g_indicator (place : Int) = d ∧
      (∀ k : Int, k ≠ (place : Int) →
        (show_place d place s).g_indicator k = s.g_indicator k)) ∧
    (place > 3 → show_to_place mem d place = mem ∧ show_place d place s = s) ∧
    (1 ≤ dig_n → dig_n ≤ 4 →
      indicator_t.memprint mem d dig_n ((dig_n : Int) - 1) = d ∧
      (∀ k : Int, k ≠ (dig_n : Int) - 1 → indicator_t.memprint mem d dig_n k = mem k) ∧
      (indicator_t.print d dig_n t).digits_ ((dig_n : Int) - 1) = d ∧
      (∀ k : Int, k ≠ (dig_n : Int) - 1 →
        (indicator_t.print d dig_n t).digits_ k = t.digits_ k)) ∧
    (dig_n = 0 ∨ dig_n > 4 →
      indicator_t.memprint mem d dig_n = mem ∧ indicator_t.print d dig_n t = t) := by
  refine ⟨?_, ?_, ?_, ?_⟩
  · intro h
    have hc : place ≥ 0 ∧ place ≤ 3 := ⟨Nat.zero_le _, h⟩
    unfold show_to_place show_place
    rw [if_pos hc, if_pos hc]
    exact ⟨Mem.write_same _ _ _, fun k hk => Mem.write_other _ _ _ _ hk,
      Mem.write_same _ _ _, fun k hk => Mem.write_other _ _ _ _ hk⟩
  · intro h
    have hc : ¬ (place ≥ 0 ∧ place ≤ 3) := fun hx => absurd hx.2 (not_le_of_gt h)
    unfold show_to_place show_place
    rw [if_neg hc, if_neg hc]
    exact ⟨rfl, rfl⟩
  · intro h1 h4
    have hc : dig_n ≥ indicator_t.DIG1 ∧ dig_n ≤ indicator_t.DIG4 := ⟨h1, h4⟩
    unfold indicator_t.memprint indicator_t.print
    rw [if_pos hc, if_pos hc]
    exact ⟨Mem.write_same _ _ _, fun k hk => Mem.write_other _ _ _ _ hk,
      Mem.write_same _ _ _, fun k hk => Mem.write_other _ _ _ _ hk⟩
  · intro h
    have hc : ¬ (dig_n ≥ indicator_t.DIG1 ∧ dig_n ≤ indicator_t.DIG4) := by
      unfold indicator_t.DIG1 indicator_t.DIG4
      omega
    unfold indicator_t.memprint indicator_t.print
    rw [if_neg hc, if_neg hc]
    exact ⟨rfl, rfl⟩

theorem single_cell_write_witness :
    frame (show_to_place (Mem.ofCells 1 2 3 4) DIGIT_7 2) = [1, 2, DIGIT_7, 4] ∧
    (show_to_place (Mem.ofCells 1 2 3 4) DIGIT_7 2 ((2 : Nat) : Int) = DIGIT_7) ∧
    (show_to_place (Mem.ofCells 1 2 3 4) DIGIT_7 200 = Mem.ofCells 1 2 3 4) ∧
    frame (indicator_t.memprint (Mem.ofCells 1 2 3 4) DIGIT_7 4) = [1, 2, 3, DIGIT_7] ∧
    (indicator_t.memprint (Mem.ofCells 1 2 3 4) DIGIT_7 0 = Mem.ofCells 1 2 3 4) :=
  ⟨by decide,
   ((single_cell_write (Mem.ofCells 1 2 3 4) DIGIT_7 2 0
      ⟨Mem.ofCells 0 0 0 0, 0, 3, 0, 0, 0, []⟩ ⟨Mem.ofCells 0 0 0 0, 0, 1, 3⟩).1
      (by decide)).1,
   ((single_cell_write (Mem.ofCells 1 2 3 4) DIGIT_7 200 0
      ⟨Mem.ofCells 0 0 0 0, 0, 3, 0, 0, 0, []⟩ ⟨Mem.ofCells 0 0 0 0, 0, 1, 3⟩).2.1
      (by decide)).1,
   by decide,
   ((single_cell_write (Mem.ofCells 1 2 3 4) DIGIT_7 2 0
      ⟨Mem.ofCells 0 0 0 0, 0, 3, 0, 0, 0, []⟩ ⟨Mem.ofCells 0 0 0 0, 0, 1, 3⟩).2.2.2
      (Or.inl rfl)).1⟩

/-! ## The send and receive remaps -/

theorem anim_send_up_blank : anim_send_up 0 = 0 := by decide

theorem anim_send_down_blank : anim_send_down 0 = 0 := by decide

theorem anim_send_up_segment : ∀ b : Bool,
    anim_send_up (if b = true then 0b01000000 else 0) = 0 := by
  decide

theorem anim_send_down_segment : ∀ b : Bool,
    anim_send_down (if b = true then 0b00010000 else 0) = 0 := by
  decide

theorem anim_send_up_three (d : Nat) : anim_send_up (anim_send_up (anim_send_up d)) = 0 := by
  rw [anim_send_up_bits d, anim_send_up_of_bits, anim_send_up_segment]

theorem anim_send_down_three (d : Nat) :
    anim_send_down (anim_send_down (anim_send_down d)) = 0 := by
  rw [anim_send_down_bits d, anim_send_down_of_bits, anim_send_down_segment]

theorem anim_vertical_leave_frame (send : Nat → Nat) (sd : Nat) (s : Driver) :
    frame (anim_vertical_leave send sd 3 s).g_indicator =
      [send (send (send (s.g_indicator 0))), send (send (send (s.g_indicator 1))),
       send (send (send (s.g_indicator 2))), send (send (send (s.g_indicator 3)))] := by
  simp [anim_vertical_leave, anim_send_cells, delay, frame, Mem.write]

/-- C18: three send steps blank any pattern: `anim_send_up` applied three times and
`anim_send_down` applied three times give 0 for every pattern; hence for every state of the
driver the leaving phase of a vertical animation (three send passes over the four cells)
leaves the four cells of the live buffer blank, whatever the `brightness` argument applied
before the arriving phase. -/
theorem anim_send_three_blank (d : Nat) (sd : Nat) (br : Int) (s : Driver) :
    anim_send_up (anim_send_up (anim_send_up d)) = 0 ∧
    anim_send_down (anim_send_down (anim_send_down d)) = 0 ∧
    frame (anim_apply_brightness br
      (anim_vertical_leave anim_send_up sd 3 s)).g_indicator = [0, 0, 0, 0] ∧
    frame (anim_apply_brightness br
      (anim_vertical_leave anim_send_down sd 3 s)).g_indicator = [0, 0, 0, 0] := by
  refine ⟨anim_send_up_three d, anim_send_down_three d, ?_, ?_⟩
  · rw [anim_apply_brightness_indicator, anim_vertical_leave_frame]
    simp only [anim_send_up_three]
  · rw [anim_apply_brightness_indicator, anim_vertical_leave_frame]
    simp only [anim_send_down_three]

theorem anim_send_up_two (d : Nat) :
    anim_send_up (anim_send_up d) = (if d &&& 0b00010000 ≠ 0 then 0b01000000 else 0) := by
  rw [anim_send_up_bits d, anim_send_up_of_bits]
  simp only [decide_eq_true_eq]

theorem anim_send_down_two (d : Nat) :
    anim_send_down (anim_send_down d) = (if d &&& 0b01000000 ≠ 0 then 0b00010000 else 0) := by
  rw [anim_send_down_bits d, anim_send_down_of_bits]
  simp only [decide_eq_true_eq]

/-- C20: the receive tables are the send tables run backwards. For every pattern `d`,
`anim_take_from_above(d, s)` is `3 - s` applications of `anim_send_up` to `d` and
`anim_take_from_bottom(d, s)` is `3 - s` applications of `anim_send_down` to `d`, for each
step `s = 0, 1, 2, 3`: step 3 is the identity, step 2 one send, step 1 two sends and step 0
three sends, which is blank. -/
theorem anim_take_is_send_backwards (d : Nat) :
    (anim_take_from_above d 3 = send_steps anim_send_up 0 d ∧
     anim_take_from_above d 2 = send_steps anim_send_up 1 d ∧
     anim_take_from_above d 1 = send_steps anim_send_up 2 d ∧
     anim_take_from_above d 0 = send_steps anim_send_up 3 d) ∧
    (anim_take_from_bottom d 3 = send_steps anim_send_down 0 d ∧
     anim_take_from_bottom d 2 = send_steps anim_send_down 1 d ∧
     anim_take_from_bottom d 1 = send_steps anim_send_down 2 d ∧
     anim_take_from_bottom d 0 = send_steps anim_send_down 3 d) ∧
    (anim_take_from_above d 2 = anim_send_up d ∧
     anim_take_from_above d 1 = anim_send_up (anim_send_up d) ∧
     anim_take_from_bottom d 2 = anim_send_down d ∧
     anim_take_from_bottom d 1 = anim_send_down (anim_send_down d)) := by
  have ha2 : anim_take_from_above d 2 = anim_send_up d := rfl
  have hb2 : anim_take_from_bottom d 2 = anim_send_down d := rfl
  have ha1 : anim_take_from_above d 1 = anim_send_up (anim_send_up d) := by
    rw [anim_send_up_two]
    simp [anim_take_from_above]
  have hb1 : anim_take_from_bottom d 1 = anim_send_down (anim_send_down d) := by
    rw [anim_send_down_two]
    simp [anim_take_from_bottom]
  have ha0 : anim_take_from_above d 0 = anim_send_up (anim_send_up (anim_send_up d)) := by
    rw [anim_send_up_three]
    rfl
  have hb0 : anim_take_from_bottom d 0 =
      anim_send_down (anim_send_down (anim_send_down d)) := by
    rw [anim_send_down_three]
    rfl
  exact ⟨⟨rfl, ha2, ha1, ha0⟩, ⟨rfl, hb2, hb1, hb0⟩, ha2, ha1, hb2, hb1⟩

/-! ## Multiplexing -/

theorem tick_brightness (s : Driver) : (TIMER2_OVF_vect s).g_brightness = s.g_brightness := by
  unfold TIMER2_OVF_vect
  simp only
  split_ifs <;> rfl

theorem tick_indicator (s : Driver) : (TIMER2_OVF_vect s).g_indicator = s.g_indicator := by
  unfold TIMER2_OVF_vect
  simp only
  split_ifs <;> rfl

theorem tick_counter_dim (s : Driver) (hb : s.g_brightness < c_max_brightness)
    (hi : s.g_indicator_i ≤ 4) :
    (TIMER2_OVF_vect s).g_indicator_i = (if s.g_indicator_i = 4 then 0 else s.g_indicator_i + 1)
    ∧ tick_phase s = (if s.g_indicator_i = 4 then Phase.pause
        else Phase.display s.g_indicator_i) := by
  have hne : ¬ (s.g_brightness = c_max_brightness ∧ s.g_indicator_i = 4) :=
    fun hx => absurd hx.1 (Nat.ne_of_lt hb)
  unfold TIMER2_OVF_vect tick_phase
  simp only [if_neg hne]
  split_ifs with h4
  · exact ⟨rfl, trivial⟩
  · refine ⟨?_, trivial⟩
    show (s.g_indicator_i + 1) % 256 = s.g_indicator_i + 1
    omega

theorem tick_counter_bright (s : Driver) (hb : s.g_brightness = c_max_brightness)
    (hi : s.g_indicator_i ≤ 4) :
    (TIMER2_OVF_vect s).g_indicator_i = s.g_indicator_i % 4 + 1
    ∧ tick_phase s = Phase.display (s.g_indicator_i % 4) := by
  unfold TIMER2_OVF_vect tick_phase
  by_cases h4 : s.g_indicator_i = 4
  · simp [hb, h4]
  · have hne : ¬ (s.g_brightness = c_max_brightness ∧ s.g_indicator_i = 4) :=
      fun hx => h4 hx.2
    have hm : s.g_indicator_i % 4 = s.g_indicator_i := by omega
    simp only [if_neg hne, if_neg h4, hm]
    refine ⟨?_, trivial⟩
    show (s.g_indicator_i + 1) % 256 = s.g_indicator_i + 1
    omega

theorem ticks_succ (n : Nat) (s : Driver) : ticks (n + 1) s = ticks n (TIMER2_OVF_vect s) := rfl

theorem ticks_bright (n : Nat) (s : Driver) (hb : s.g_brightness = c_max_brightness)
    (hi : s.g_indicator_i ≤ 4) :
    tick_phase (ticks n s) = Phase.display ((s.g_indicator_i + n) % 4) := by
  induction n generalizing s with
  | zero => exact (tick_counter_bright s hb hi).2
  | succ n ih =>
    have h1 := (tick_counter_bright s hb hi).1
    have hb1 : (TIMER2_OVF_vect s).g_brightness = c_max_brightness := by
      rw [tick_brightness, hb]
    have hi1 : (TIMER2_OVF_vect s).g_indicator_i ≤ 4 := by
      rw [h1]
      omega
    rw [ticks_succ, ih (TIMER2_OVF_vect s) hb1 hi1, h1]
    congr 1
    omega

/-- C14: the multiplex cycle. With a brightness level below `c_max_brightness` and the
position counter at 0, five consecutive ticks are, in order, display ticks for the positions
0, 1, 2, 3 and then one pause tick, the counter is 0 again after them and the level is the
same; with the level at `c_max_brightness` and the counter anywhere in 0..4, the tick number
`n` (counted from 0) is the display tick for position `(counter + n) mod 4`, so no tick is
ever a pause tick and the positions repeat 0, 1, 2, 3, 0, 1, ... -/
theorem multiplex_cycle (s : Driver) :
    (s.g_brightness < c_max_brightness → s.g_indicator_i = 0 →
      (List.range 5).map (fun n => tick_phase (ticks n s)) =
        [Phase.display 0, Phase.display 1, Phase.display 2, Phase.display 3, Phase.pause] ∧
      (ticks 5 s).g_indicator_i = 0 ∧
      (ticks 5 s).g_brightness = s.g_brightness) ∧
    (s.g_brightness = c_max_brightness → s.g_indicator_i ≤ 4 →
      ∀ n : Nat, tick_phase (ticks n s) = Phase.display ((s.g_indicator_i + n) % 4) ∧
        tick_phase (ticks n s) ≠ Phase.pause) := by
  constructor
  · intro hb h0
    have e1 : ticks 1 s = TIMER2_OVF_vect s := rfl
    have e2 : ticks 2 s = TIMER2_OVF_vect (ticks 1 s) := rfl
    have e3 : ticks 3 s = TIMER2_OVF_vect (ticks 2 s) := rfl
    have e4 : ticks 4 s = TIMER2_OVF_vect (ticks 3 s) := rfl
    have e5 : ticks 5 s = TIMER2_OVF_vect (ticks 4 s) := rfl
    have b1 : (ticks 1 s).g_brightness = s.g_brightness := by rw [e1, tick_brightness]
    have b2 : (ticks 2 s).g_brightness = s.g_brightness := by rw [e2, tick_brightness, b1]
    have b3 : (ticks 3 s).g_brightness = s.g_brightness := by rw [e3, tick_brightness, b2]
    have b4 : (ticks 4 s).g_brightness = s.g_brightness := by rw [e4, tick_brightness, b3]
    have b5 : (ticks 5 s).g_brightness = s.g_brightness := by rw [e5, tick_brightness, b4]
    have t0 := tick_counter_dim s hb (by omega)
    rw [h0] at t0
    have i1 : (ticks 1 s).g_indicator_i = 1 := by rw [e1, t0.1]; rfl
    have t1 := tick_counter_dim (ticks 1 s) (by rw [b1]; exact hb) (by omega)
    rw [i1] at t1
    have i2 : (ticks 2 s).g_indicator_i = 2 := by rw [e2, t1.1]; rfl
    have t2 := tick_counter_dim (ticks 2 s) (by rw [b2]; exact hb) (by omega)
    rw [i2] at t2
    have i3 : (ticks 3 s).g_indicator_i = 3 := by rw [e3, t2.1]; rfl
    have t3 := tick_counter_dim (ticks 3 s) (by rw [b3]; exact hb) (by omega)
    rw [i3] at t3
    have i4 : (ticks 4 s).g_indicator_i = 4 := by rw [e4, t3.1]; rfl
    have t4 := tick_counter_dim (ticks 4 s) (by rw [b4]; exact hb) (by omega)
    rw [i4] at t4
    have i5 : (ticks 5 s).g_indicator_i = 0 := by rw [e5, t4.1]; rfl
    have p0 : tick_phase (ticks 0 s) = Phase.display 0 := t0.2
    refine ⟨?_, i5, b5⟩
    show [tick_phase (ticks 0 s), tick_phase (ticks 1 s), tick_phase (ticks 2 s),
      tick_phase (ticks 3 s), tick_phase (ticks 4 s)] = _
    rw [p0, t1.2, t2.2, t3.2, t4.2]
    rfl
  · intro hb hi n
    have h := ticks_bright n s hb hi
    refine ⟨h, ?_⟩
    rw [h]
    exact fun hx => Phase.noConfusion hx

theorem multiplex_cycle_witness :
    (List.range 5).map (fun n => tick_phase (ticks n
        ⟨Mem.ofCells DIGIT_1 DIGIT_2 DIGIT_3 DIGIT_4, 0, 1, 0, 0, 0, []⟩)) =
      [Phase.display 0, Phase.display 1, Phase.display 2, Phase.display 3, Phase.pause] ∧
    tick_phase (ticks 6 ⟨Mem.ofCells DIGIT_1 DIGIT_2 DIGIT_3 DIGIT_4, 4, 3, 0, 0, 0, []⟩) =
      Phase.display ((4 + 6) % 4) :=
  ⟨((multiplex_cycle ⟨Mem.ofCells DIGIT_1 DIGIT_2 DIGIT_3 DIGIT_4, 0, 1, 0, 0, 0, []⟩).1
      (by decide) rfl).1,
   (((multiplex_cycle ⟨Mem.ofCells DIGIT_1 DIGIT_2 DIGIT_3 DIGIT_4, 4, 3, 0, 0, 0, []⟩).2
      rfl (by decide)) 6).1⟩

theorem testBit_store (x k : Nat) (hk : k < 8) : (x % 256).testBit k = x.testBit k := by
  have h : (256 : Nat) = 2 ^ 8 := by norm_num
  rw [h, Nat.testBit_mod_two_pow]
  simp [hk]

theorem select_mask_bit (p i k : Nat) (hi : i ≤ 3) (hk : k < 8) :
    ((((p ||| 0b00111100) % 256) &&&
        ((0xFFFF ^^^ (1 <<< (5 - i))) ||| 0b11000011)) % 256).testBit k =
      if 2 ≤ k ∧ k ≤ 5 then decide (k ≠ 5 - i) else p.testBit k := by
  rw [testBit_store _ _ hk, Nat.testBit_land, testBit_store _ _ hk, Nat.testBit_lor]
  generalize p.testBit k = b
  revert b
  interval_cases i <;> interval_cases k <;> decide

theorem deselect_bit (p k : Nat) (hk : k < 8) :
    ((p ||| 0b00111100) % 256).testBit k =
      if 2 ≤ k ∧ k ≤ 5 then true else p.testBit k := by
  rw [testBit_store _ _ hk, Nat.testBit_lor]
  generalize p.testBit k = b
  revert b
  interval_cases k <;> decide

theorem tick_display_regs (s : Driver) (i : Nat) (h : tick_phase s = Phase.display i) :
    (TIMER2_OVF_vect s).PORTB = s.g_indicator (i : Int) ∧
    (TIMER2_OVF_vect s).TCCR2B = c_indicator_prescalers_on.getD s.g_brightness 0 ∧
    (TIMER2_OVF_vect s).PORTC =
      (((s.PORTC ||| 0b00111100) % 256) &&&
        ((0xFFFF ^^^ (1 <<< (5 - i))) ||| 0b11000011)) % 256 := by
  unfold tick_phase at h
  unfold TIMER2_OVF_vect
  by_cases hc : s.g_brightness = c_max_brightness ∧ s.g_indicator_i = 4
  · simp only [if_pos hc] at h
    have hi : i = 0 := by
      have := h
      simp at this
      exact this.symm
    subst hi
    simp [hc]
  · simp only [if_neg hc] at h
    by_cases h4 : s.g_indicator_i = 4
    · simp [h4] at h
    · simp only [if_neg h4] at h
      have hi : s.g_indicator_i = i := by
        injection h
      subst hi
      simp [hc, h4]

theorem tick_pause_regs (s : Driver) (h : tick_phase s = Phase.pause) :
    (TIMER2_OVF_vect s).TCCR2B = c_indicator_prescalers_off.getD s.g_brightness 0 ∧
    (TIMER2_OVF_vect s).PORTC = (s.PORTC ||| 0b00111100) % 256 := by
  unfold tick_phase at h
  unfold TIMER2_OVF_vect
  by_cases hc : s.g_brightness = c_max_brightness ∧ s.g_indicator_i = 4
  · simp [hc] at h
  · simp only [if_neg hc] at h
    by_cases h4 : s.g_indicator_i = 4
    · have hb : ¬ s.g_brightness = c_max_brightness := fun hx => hc ⟨hx, h4⟩
      simp [hb, h4]
    · simp [h4] at h

/-- C15: the digit-select lines are one-hot and active-low. For every state of the driver
with a brightness level in 0..3 (so for every prior value of the port registers): after a
display tick for position `i` in 0..3, `PORTB` is `g_indicator[i]`, `TCCR2B` is the
on-divider of the level, and among the bits 2..5 of `PORTC` exactly bit `5 - i` is low;
after a pause tick, `TCCR2B` is the off-divider of the level and the bits 2..5 of `PORTC`
are all high; in both cases the bits 0, 1, 6 and 7 of `PORTC` keep their prior values. -/
theorem tick_select_lines (s : Driver) (hbr : s.g_brightness ≤ c_max_brightness) :
    (∀ i : Nat, i ≤ 3 → tick_phase s = Phase.display i →
      (TIMER2_OVF_vect s).PORTB = s.g_indicator (i : Int) ∧
      (TIMER2_OVF_vect s).TCCR2B = c_indicator_prescalers_on.getD s.g_brightness 0 ∧
      (∀ k : Nat, 2 ≤ k → k ≤ 5 →
        ((TIMER2_OVF_vect s).PORTC.testBit k = false ↔ k = 5 - i)) ∧
      (∀ k : Nat, k = 0 ∨ k = 1 ∨ k = 6 ∨ k = 7 →
        (TIMER2_OVF_vect s).PORTC.testBit k = s.PORTC.testBit k)) ∧
    (tick_phase s = Phase.pause →
      (TIMER2_OVF_vect s).TCCR2B = c_indicator_prescalers_off.getD s.g_brightness 0 ∧
      (∀ k : Nat, 2 ≤ k → k ≤ 5 → (TIMER2_OVF_vect s).PORTC.testBit k = true) ∧
      (∀ k : Nat, k = 0 ∨ k = 1 ∨ k = 6 ∨ k = 7 →
        (TIMER2_OVF_vect s).PORTC.testBit k = s.PORTC.testBit k)) := by
  constructor
  · intro i hi hp
    obtain ⟨hB, hT, hC⟩ := tick_display_regs s i hp
    refine ⟨hB, hT, ?_, ?_⟩
    · intro k h2 h5
      rw [hC, select_mask_bit s.PORTC i k hi (by omega), if_pos ⟨h2, h5⟩]
      simp
    · intro k hk
      rw [hC, select_mask_bit s.PORTC i k hi (by omega), if_neg (by omega)]
  · intro hp
    obtain ⟨hT, hC⟩ := tick_pause_regs s hp
    refine ⟨hT, ?_, ?_⟩
    · intro k h2 h5
      rw [hC, deselect_bit s.PORTC k (by omega), if_pos ⟨h2, h5⟩]
    · intro k hk
      rw [hC, deselect_bit s.PORTC k (by omega), if_neg (by omega)]

theorem tick_select_lines_witness :
    (1 ≤ c_max_brightness ∧ 2 ≤ 3 ∧
      tick_phase ⟨Mem.ofCells DIGIT_1 DIGIT_2 DIGIT_3 DIGIT_4, 2, 1, 0, 0b10000001, 0, []⟩ =
        Phase.display 2) ∧
    (TIMER2_OVF_vect
      ⟨Mem.ofCells DIGIT_1 DIGIT_2 DIGIT_3 DIGIT_4, 2, 1, 0, 0b10000001, 0, []⟩).PORTB =
      Mem.ofCells DIGIT_1 DIGIT_2 DIGIT_3 DIGIT_4 ((2 : Nat) : Int) ∧
    (TIMER2_OVF_vect
      ⟨Mem.ofCells DIGIT_1 DIGIT_2 DIGIT_3 DIGIT_4, 2, 1, 0, 0b10000001, 0, []⟩).PORTC =
      0b10110101 :=
  ⟨by decide,
   ((tick_select_lines
      ⟨Mem.ofCells DIGIT_1 DIGIT_2 DIGIT_3 DIGIT_4, 2, 1, 0, 0b10000001, 0, []⟩
      (by decide)).1 2 (by decide) (by decide)).1,
   by decide⟩

/-! ## Horizontal animations: the frames -/

theorem anim_goleft_leave_clear (sd : Nat) (s : Driver) :
    indicator_is_clear (anim_goleft_leave sd 4 s) = true := by
  simp only [anim_goleft_leave]
  split_ifs with h1 h2 h3 h4
  · exact h1
  · exact h2
  · exact h3
  · exact h4
  · simp [indicator_is_clear_iff, indicator_is_clear, delay, Mem.write] at *

theorem anim_apply_brightness_delays (br : Int) (s : Driver) :
    (anim_apply_brightness br s).delays = s.delays := by
  unfold anim_apply_brightness set_brightness
  split_ifs <;> rfl

theorem anim_apply_brightness_clear (br : Int) (s : Driver) :
    indicator_is_clear (anim_apply_brightness br s) = indicator_is_clear s := by
  unfold indicator_is_clear
  rw [anim_apply_brightness_indicator]

theorem anim_find_last_spec (mem : Mem) :
    (anim_find_last mem 4 3 = -1 ∧ mem 0 = 0 ∧ mem 1 = 0 ∧ mem 2 = 0 ∧ mem 3 = 0) ∨
    (0 ≤ anim_find_last mem 4 3 ∧ anim_find_last mem 4 3 ≤ 3 ∧
      mem (anim_find_last mem 4 3) ≠ 0 ∧
      ∀ k : Int, anim_find_last mem 4 3 < k → k ≤ 3 → mem k = 0) := by
  by_cases m3 : mem 3 = 0
  · by_cases m2 : mem 2 = 0
    · by_cases m1 : mem 1 = 0
      · by_cases m0 : mem 0 = 0
        · left
          simp [anim_find_last, m0, m1, m2, m3]
        · right
          have h : anim_find_last mem 4 3 = 0 := by simp [anim_find_last, m0, m1, m2, m3]
          rw [h]
          refine ⟨by omega, by omega, m0, fun k h1 h2 => ?_⟩
          interval_cases k <;> assumption
      · right
        have h : anim_find_last mem 4 3 = 1 := by simp [anim_find_last, m1, m2, m3]
        rw [h]
        refine ⟨by omega, by omega, m1, fun k h1 h2 => ?_⟩
        interval_cases k <;> assumption
    · right
      have h : anim_find_last mem 4 3 = 2 := by simp [anim_find_last, m2, m3]
      rw [h]
      refine ⟨by omega, by omega, m2, fun k h1 h2 => ?_⟩
      interval_cases k
      assumption
  · right
    have h : anim_find_last mem 4 3 = 3 := by simp [anim_find_last, m3]
    rw [h]
    exact ⟨by omega, by omega, m3, fun k h1 h2 => by omega⟩

theorem anim_goleft_come_delays (mem : Mem) (L : Int) (sd : Nat) (s : Driver)
    (hs : indicator_is_clear s = true) :
    (anim_goleft_come mem L sd 4 0 s).delays =
      s.delays ++ [(sd, goleft_reveal_frame mem L 0), (sd, goleft_reveal_frame mem L 1),
        (sd, goleft_reveal_frame mem L 2), (sd, goleft_reveal_frame mem L 3)] := by
  rw [indicator_is_clear_iff] at hs
  obtain ⟨g0, g1, g2, g3⟩ := hs
  have e : ∀ x : Int, (if x < 0 then 0 else mem x) = (if 0 ≤ x then mem x else 0) := by
    intro x
    split_ifs <;> first | rfl | omega
  simp [anim_goleft_come, anim_goleft_row, delay, frame, Mem.write, goleft_reveal_frame,
    goleft_reveal_cell, g0, g1, g2, g3, e]
  refine ⟨?_, ?_, ?_⟩ <;> split_ifs <;> first | rfl | omega

/-- C19: reveal alignment of the leftward animation. With `L` the result of the search of
`ANIM_GOLEFT` — which is -1 when the new value is all blank and otherwise the index of its
last non-blank cell — the arriving phase shows exactly four frames after those of the
leaving phase, and the frame of step `i = 0..3` has, for each `j <= i`, cell `j` equal to
cell `L - i + j` of the new value when `L - i + j >= 0` and blank otherwise, and every cell
`j > i` blank; so cell `i` of frame `i` holds cell `L` of the new value (when there is one),
and the last frame, which is the final content of the live buffer, has it in cell 3. -/
theorem anim_goleft_reveal_alignment (mem : Mem) (sd : Nat) (br : Int) (s : Driver) :
    ((anim_find_last mem 4 3 = -1 ∧ mem 0 = 0 ∧ mem 1 = 0 ∧ mem 2 = 0 ∧ mem 3 = 0) ∨
      (0 ≤ anim_find_last mem 4 3 ∧ anim_find_last mem 4 3 ≤ 3 ∧
        mem (anim_find_last mem 4 3) ≠ 0 ∧
        ∀ k : Int, anim_find_last mem 4 3 < k → k ≤ 3 → mem k = 0)) ∧
    (anim mem anim_t.ANIM_GOLEFT sd br s).delays =
      (anim_goleft_leave sd 4 s).delays ++
        [(sd, goleft_reveal_frame mem (anim_find_last mem 4 3) 0),
         (sd, goleft_reveal_frame mem (anim_find_last mem 4 3) 1),
         (sd, goleft_reveal_frame mem (anim_find_last mem 4 3) 2),
         (sd, goleft_reveal_frame mem (anim_find_last mem 4 3) 3)] ∧
    frame (anim mem anim_t.ANIM_GOLEFT sd br s).g_indicator =
      goleft_reveal_frame mem (anim_find_last mem 4 3) 3 ∧
    (goleft_reveal_cell mem (anim_find_last mem 4 3) 0 0 =
        (if 0 ≤ anim_find_last mem 4 3 then mem (anim_find_last mem 4 3) else 0) ∧
      goleft_reveal_cell mem (anim_find_last mem 4 3) 1 1 =
        (if 0 ≤ anim_find_last mem 4 3 then mem (anim_find_last mem 4 3) else 0) ∧
      goleft_reveal_cell mem (anim_find_last mem 4 3) 2 2 =
        (if 0 ≤ anim_find_last mem 4 3 then mem (anim_find_last mem 4 3) else 0) ∧
      goleft_reveal_cell mem (anim_find_last mem 4 3) 3 3 =
        (if 0 ≤ anim_find_last mem 4 3 then mem (anim_find_last mem 4 3) else 0)) := by
  refine ⟨anim_find_last_spec mem, ?_, ?_, ?_⟩
  · simp only [anim]
    rw [anim_goleft_come_delays, anim_apply_brightness_delays]
    rw [anim_apply_brightness_clear]
    exact anim_goleft_leave_clear sd s
  · simp only [anim]
    rw [anim_goleft_come_frame]
    have e : ∀ x : Int, (if x < 0 then 0 else mem x) = (if 0 ≤ x then mem x else 0) := by
      intro x
      split_ifs <;> first | rfl | omega
    simp [goleft_reveal_frame, goleft_reveal_cell, e]
    split_ifs <;> first | rfl | omega
  · simp [goleft_reveal_cell]

theorem anim_goleft_leave_frames (sd : Nat) (s : Driver) :
    ∃ f : List (Nat × List Nat), (anim_goleft_leave sd 4 s).delays = s.delays ++ f ∧
      ∀ fr ∈ f, ∀ c ∈ fr.2, c = 0 ∨ c ∈ frame s.g_indicator := by
  simp only [anim_goleft_leave]
  split_ifs <;> simp only [delay, List.append_assoc] <;> refine ⟨_, rfl, ?_⟩ <;>
    simp [frame, Mem.write]

theorem anim_goright_leave_frames (sd : Nat) (s : Driver) :
    ∃ f : List (Nat × List Nat), (anim_goright_leave sd 4 s).delays = s.delays ++ f ∧
      ∀ fr ∈ f, ∀ c ∈ fr.2, c = 0 ∨ c ∈ frame s.g_indicator := by
  simp only [anim_goright_leave]
  split_ifs <;> simp only [delay, List.append_assoc] <;> refine ⟨_, rfl, ?_⟩ <;>
    simp [frame, Mem.write]

theorem goleft_reveal_cell_drawn (mem : Mem) (L i j : Int) (hL : L ≤ 3) :
    goleft_reveal_cell mem L i j = 0 ∨ goleft_reveal_cell mem L i j ∈ frame mem := by
  unfold goleft_reveal_cell
  split_ifs with h1 h2
  · right
    have hx : L - i + j = 0 ∨ L - i + j = 1 ∨ L - i + j = 2 ∨ L - i + j = 3 := by omega
    rcases hx with hx | hx | hx | hx <;> rw [hx] <;> simp [frame]
  · exact Or.inl rfl
  · exact Or.inl rfl

theorem goleft_reveal_frame_drawn (mem : Mem) (L i : Int) (hL : L ≤ 3) :
    ∀ c ∈ goleft_reveal_frame mem L i, c = 0 ∨ c ∈ frame mem := by
  intro c hc
  simp only [goleft_reveal_frame, List.mem_cons, List.mem_singleton, List.not_mem_nil,
    or_false] at hc
  rcases hc with hc | hc | hc | hc <;> rw [hc] <;> exact goleft_reveal_cell_drawn mem L i _ hL

theorem anim_find_last_le (mem : Mem) : anim_find_last mem 4 3 ≤ 3 := by
  rcases anim_find_last_spec mem with h | h
  · rw [h.1]
    decide
  · exact h.2.1

theorem anim_goright_come_frames (mem : Mem) (sd : Nat) (s : Driver)
    (hs : indicator_is_clear s = true) :
    ∃ f : List (Nat × List Nat),
      (anim_goright_come mem (anim_find_first mem 4 0) sd
        (4 - anim_find_first mem 4 0).toNat 0 s).delays = s.delays ++ f ∧
      ∀ fr ∈ f, ∀ c ∈ fr.2, c = 0 ∨ c ∈ frame mem := by
  rw [indicator_is_clear_iff] at hs
  obtain ⟨g0, g1, g2, g3⟩ := hs
  by_cases m0 : mem 0 = 0
  · by_cases m1 : mem 1 = 0
    · by_cases m2 : mem 2 = 0
      · by_cases m3 : mem 3 = 0
        · simp [anim_find_first, anim_goright_come, anim_goright_row, delay, frame,
            Mem.write, m0, m1, m2, m3, g0, g1, g2, g3]
        · simp [anim_find_first, anim_goright_come, anim_goright_row, delay, frame,
            Mem.write, m0, m1, m2, m3, g0, g1, g2, g3]
      · simp [anim_find_first, anim_goright_come, anim_goright_row, delay, frame,
          Mem.write, m0, m1, m2, g0, g1, g2, g3]
        intro a b h c hc
        aesop
    · simp [anim_find_first, anim_goright_come, anim_goright_row, delay, frame,
        Mem.write, m0, m1, g0, g1, g2, g3]
      intro a b h c hc
      aesop
  · simp [anim_find_first, anim_goright_come, anim_goright_row, delay, frame,
      Mem.write, m0, g0, g1, g2, g3]
    intro a b h c hc
    aesop

/-! ## Horizontal animations: the indices -/

theorem anim_goleft_leave_indices_range (sd : Nat) (n : Nat) (s : Driver) :
    ∀ k ∈ anim_goleft_leave_indices sd n s, 0 ≤ k ∧ k ≤ 3 := by
  induction n generalizing s with
  | zero => simp [anim_goleft_leave_indices]
  | succ n ih =>
    intro k hk
    simp only [anim_goleft_leave_indices, List.mem_append] at hk
    rcases hk with hk | hk
    · simp only [List.mem_cons, List.mem_singleton, List.not_mem_nil, or_false] at hk
      omega
    · split_ifs at hk
      · simp at hk
      · exact ih _ k hk

theorem anim_goright_leave_indices_range (sd : Nat) (n : Nat) (s : Driver) :
    ∀ k ∈ anim_goright_leave_indices sd n s, 0 ≤ k ∧ k ≤ 3 := by
  induction n generalizing s with
  | zero => simp [anim_goright_leave_indices]
  | succ n ih =>
    intro k hk
    simp only [anim_goright_leave_indices, List.mem_append] at hk
    rcases hk with hk | hk
    · simp only [List.mem_cons, List.mem_singleton, List.not_mem_nil, or_false] at hk
      omega
    · split_ifs at hk
      · simp at hk
      · exact ih _ k hk

theorem anim_find_last_indices_range (mem : Mem) :
    ∀ k ∈ anim_find_last_indices mem 4 3, 0 ≤ k ∧ k ≤ 3 := by
  intro k hk
  simp only [anim_find_last_indices] at hk
  split_ifs at hk <;> simp at hk <;> omega

theorem anim_find_first_indices_range (mem : Mem) :
    ∀ k ∈ anim_find_first_indices mem 4 0, 0 ≤ k ∧ k ≤ 3 := by
  intro k hk
  simp only [anim_find_first_indices] at hk
  split_ifs at hk <;> simp at hk <;> omega

theorem anim_goleft_come_indices_range (L : Int) (h1 : -1 ≤ L) (h3 : L ≤ 3) :
    ∀ k ∈ anim_goleft_come_indices L 4 0, 0 ≤ k ∧ k ≤ 3 := by
  interval_cases L <;> decide

theorem anim_goright_come_indices_range (F : Int) (h0 : 0 ≤ F) (h4 : F ≤ 4) :
    ∀ k ∈ anim_goright_come_indices F (4 - F).toNat 0, 0 ≤ k ∧ k ≤ 3 := by
  interval_cases F <;> decide

theorem anim_find_first_range (mem : Mem) :
    0 ≤ anim_find_first mem 4 0 ∧ anim_find_first mem 4 0 ≤ 4 := by
  simp only [anim_find_first]
  split_ifs <;> omega

theorem anim_goleft_outside (mem : Mem) (sd : Nat) (br : Int) (s : Driver) (k : Int)
    (hk : k < 0 ∨ 3 < k) :
    (anim mem anim_t.ANIM_GOLEFT sd br s).g_indicator k = s.g_indicator k := by
  have k0 : k ≠ 0 := by omega
  have k1 : k ≠ 1 := by omega
  have k2 : k ≠ 2 := by omega
  have k3 : k ≠ 3 := by omega
  have hcome : ∀ (L : Int) (t : Driver),
      (anim_goleft_come mem L sd 4 0 t).g_indicator k = t.g_indicator k := by
    intro L t
    simp [anim_goleft_come, anim_goleft_row, delay, Mem.write, k0, k1, k2, k3]
  have hleave : (anim_goleft_leave sd 4 s).g_indicator k = s.g_indicator k := by
    simp only [anim_goleft_leave]
    split_ifs <;> simp [delay, Mem.write, k0, k1, k2, k3]
  simp only [anim]
  rw [hcome, anim_apply_brightness_indicator, hleave]

theorem anim_goright_outside (mem : Mem) (sd : Nat) (br : Int) (s : Driver) (k : Int)
    (hk : k < 0 ∨ 3 < k) :
    (anim mem anim_t.ANIM_GORIGHT sd br s).g_indicator k = s.g_indicator k := by
  have k0 : k ≠ 0 := by omega
  have k1 : k ≠ 1 := by omega
  have k2 : k ≠ 2 := by omega
  have k3 : k ≠ 3 := by omega
  have hcome : ∀ (F : Int) (t : Driver), 0 ≤ F → F ≤ 4 →
      (anim_goright_come mem F sd (4 - F).toNat 0 t).g_indicator k = t.g_indicator k := by
    intro F t h0 h4
    interval_cases F <;>
      simp [anim_goright_come, anim_goright_row, delay, Mem.write, k0, k1, k2, k3]
  have hleave : (anim_goright_leave sd 4 s).g_indicator k = s.g_indicator k := by
    simp only [anim_goright_leave]
    split_ifs <;> simp [delay, Mem.write, k0, k1, k2, k3]
  simp only [anim]
  rw [hcome _ _ (anim_find_first_range mem).1 (anim_find_first_range mem).2,
    anim_apply_brightness_indicator, hleave]

/-- C11: no synthesized patterns in a horizontal animation. For `ANIM_GOLEFT` and for
`ANIM_GORIGHT`, every state of the driver and every new value: the frames shown are those of
the leaving phase followed by those of the arriving phase; each cell of each frame of the
leaving phase is blank or equal to a cell of the initial live buffer; each cell of each
frame of the arriving phase is blank or equal to a cell of the new value; every index with
which the live buffer is written or the new value is read is within 0..3, and no cell of
the live buffer outside 0..3 is changed. -/
theorem anim_horizontal_no_synthesized (mem : Mem) (sd : Nat) (br : Int) (s : Driver) :
    (∃ f1 f2 : List (Nat × List Nat),
      (anim_goleft_leave sd 4 s).delays = s.delays ++ f1 ∧
      (anim mem anim_t.ANIM_GOLEFT sd br s).delays = s.delays ++ f1 ++ f2 ∧
      (∀ fr ∈ f1, ∀ c ∈ fr.2, c = 0 ∨ c ∈ frame s.g_indicator) ∧
      (∀ fr ∈ f2, ∀ c ∈ fr.2, c = 0 ∨ c ∈ frame mem)) ∧
    (∃ f1 f2 : List (Nat × List Nat),
      (anim_goright_leave sd 4 s).delays = s.delays ++ f1 ∧
      (anim mem anim_t.ANIM_GORIGHT sd br s).delays = s.delays ++ f1 ++ f2 ∧
      (∀ fr ∈ f1, ∀ c ∈ fr.2, c = 0 ∨ c ∈ frame s.g_indicator) ∧
      (∀ fr ∈ f2, ∀ c ∈ fr.2, c = 0 ∨ c ∈ frame mem)) ∧
    (∀ k ∈ anim_goleft_indices mem sd s, 0 ≤ k ∧ k ≤ 3) ∧
    (∀ k ∈ anim_goright_indices mem sd s, 0 ≤ k ∧ k ≤ 3) ∧
    (∀ k : Int, k < 0 ∨ 3 < k →
      (anim mem anim_t.ANIM_GOLEFT sd br s).g_indicator k = s.g_indicator k ∧
      (anim mem anim_t.ANIM_GORIGHT sd br s).g_indicator k = s.g_indicator k) := by
  refine ⟨?_, ?_, ?_, ?_, ?_⟩
  · obtain ⟨f1, h1, hf1⟩ := anim_goleft_leave_frames sd s
    refine ⟨f1, [(sd, goleft_reveal_frame mem (anim_find_last mem 4 3) 0),
      (sd, goleft_reveal_frame mem (anim_find_last mem 4 3) 1),
      (sd, goleft_reveal_frame mem (anim_find_last mem 4 3) 2),
      (sd, goleft_reveal_frame mem (anim_find_last mem 4 3) 3)], h1, ?_, hf1, ?_⟩
    · simp only [anim]
      rw [anim_goleft_come_delays mem _ sd _
        (by rw [anim_apply_brightness_clear]; exact anim_goleft_leave_clear sd s),
        anim_apply_brightness_delays, h1]
    · intro fr hfr c hc
      have hL := anim_find_last_le mem
      simp only [List.mem_cons, List.mem_singleton, List.not_mem_nil, or_false] at hfr
      rcases hfr with hfr | hfr | hfr | hfr <;> rw [hfr] at hc <;>
        exact goleft_reveal_frame_drawn mem _ _ hL c hc
  · obtain ⟨f1, h1, hf1⟩ := anim_goright_leave_frames sd s
    obtain ⟨f2, h2, hf2⟩ := anim_goright_come_frames mem sd
      (anim_apply_brightness br (anim_goright_leave sd 4 s))
      (by rw [anim_apply_brightness_clear]; exact anim_goright_leave_clear sd s)
    refine ⟨f1, f2, h1, ?_, hf1, hf2⟩
    simp only [anim]
    rw [h2, anim_apply_brightness_delays, h1]
  · intro k hk
    simp only [anim_goleft_indices, List.mem_append] at hk
    rcases hk with (hk | hk) | hk
    · exact anim_goleft_leave_indices_range sd 4 s k hk
    · exact anim_find_last_indices_range mem k hk
    · refine anim_goleft_come_indices_range _ ?_ (anim_find_last_le mem) k hk
      rcases anim_find_last_spec mem with h | h
      · rw [h.1]
      · exact le_trans (by decide) h.1
  · intro k hk
    simp only [anim_goright_indices, List.mem_append] at hk
    rcases hk with (hk | hk) | hk
    · exact anim_goright_leave_indices_range sd 4 s k hk
    · exact anim_find_first_indices_range mem k hk
    · exact anim_goright_come_indices_range _ (anim_find_first_range mem).1
        (anim_find_first_range mem).2 k hk
  · intro k hk
    exact ⟨anim_goleft_outside mem sd br s k hk, anim_goright_outside mem sd br s k hk⟩

/-! ## The state invariant -/

theorem show_fix_to_mem_eq (mem : Mem) (v : Int) (d b e sp : Nat) :
    ∃ s0 : FixState, s0.mem = mem ∧
      (show_fix_to mem v d b e sp).2 =
        (show_fix_loop d sp ((e : Int) - (d : Int)) ((e : Int) - (b : Int) + 1).toNat
          (e : Int) s0).mem := by
  unfold show_fix_to
  by_cases hv : v < 0
  · exact ⟨{ mem := mem, num := wrap_int (-v), negative := true }, rfl,
      by simp only [if_pos hv]⟩
  · exact ⟨{ mem := mem, num := v, negative := false }, rfl, by simp only [if_neg hv]⟩

theorem delay_ctl (sd : Nat) (s : Driver) :
    (delay sd s).g_indicator_i = s.g_indicator_i ∧ (delay sd s).g_brightness = s.g_brightness :=
  ⟨rfl, rfl⟩

theorem anim_goleft_leave_ctl (sd : Nat) (n : Nat) (s : Driver) :
    (anim_goleft_leave sd n s).g_indicator_i = s.g_indicator_i ∧
    (anim_goleft_leave sd n s).g_brightness = s.g_brightness := by
  induction n generalizing s with
  | zero => exact ⟨rfl, rfl⟩
  | succ n ih =>
    simp only [anim_goleft_leave]
    split_ifs
    · exact ⟨rfl, rfl⟩
    · exact ih _

theorem anim_goright_leave_ctl (sd : Nat) (n : Nat) (s : Driver) :
    (anim_goright_leave sd n s).g_indicator_i = s.g_indicator_i ∧
    (anim_goright_leave sd n s).g_brightness = s.g_brightness := by
  induction n generalizing s with
  | zero => exact ⟨rfl, rfl⟩
  | succ n ih =>
    simp only [anim_goright_leave]
    split_ifs
    · exact ⟨rfl, rfl⟩
    · exact ih _

theorem anim_goleft_come_ctl (mem : Mem) (L : Int) (sd : Nat) (n : Nat) (i : Int)
    (s : Driver) :
    (anim_goleft_come mem L sd n i s).g_indicator_i = s.g_indicator_i ∧
    (anim_goleft_come mem L sd n i s).g_brightness = s.g_brightness := by
  induction n generalizing i s with
  | zero => exact ⟨rfl, rfl⟩
  | succ n ih =>
    simp only [anim_goleft_come]
    exact ih _ _

theorem anim_goright_come_ctl (mem : Mem) (F : Int) (sd : Nat) (n : Nat) (i : Int)
    (s : Driver) :
    (anim_goright_come mem F sd n i s).g_indicator_i = s.g_indicator_i ∧
    (anim_goright_come mem F sd n i s).g_brightness = s.g_brightness := by
  induction n generalizing i s with
  | zero => exact ⟨rfl, rfl⟩
  | succ n ih =>
    simp only [anim_goright_come]
    exact ih _ _

theorem anim_vertical_leave_ctl (send : Nat → Nat) (sd : Nat) (n : Nat) (s : Driver) :
    (anim_vertical_leave send sd n s).g_indicator_i = s.g_indicator_i ∧
    (anim_vertical_leave send sd n s).g_brightness = s.g_brightness := by
  induction n generalizing s with
  | zero => exact ⟨rfl, rfl⟩
  | succ n ih =>
    simp only [anim_vertical_leave]
    exact ih _

theorem anim_vertical_come_ctl (take : Nat → Nat → Nat) (mem : Mem) (sd : Nat) (n i : Nat)
    (s : Driver) :
    (anim_vertical_come take mem sd n i s).g_indicator_i = s.g_indicator_i ∧
    (anim_vertical_come take mem sd n i s).g_brightness = s.g_brightness := by
  induction n generalizing i s with
  | zero => exact ⟨rfl, rfl⟩
  | succ n ih =>
    simp only [anim_vertical_come]
    exact ih _ _

theorem set_brightness_inv (b : Int) (s : Driver) (h : driver_inv s) :
    driver_inv (set_brightness b s) := by
  have h3 : (c_max_brightness : Int) = 3 := rfl
  unfold driver_inv set_brightness
  simp only [h3]
  refine ⟨h.1, ?_⟩
  split_ifs <;> omega

theorem anim_apply_brightness_inv (b : Int) (s : Driver) (h : driver_inv s) :
    driver_inv (anim_apply_brightness b s) := by
  unfold anim_apply_brightness
  split_ifs
  · exact set_brightness_inv b s h
  · exact h

theorem driver_inv_of_ctl (s t : Driver) (h : driver_inv s)
    (e : t.g_indicator_i = s.g_indicator_i ∧ t.g_brightness = s.g_brightness) :
    driver_inv t := by
  unfold driver_inv at *
  rw [e.1, e.2]
  exact h

theorem anim_inv (mem : Mem) (k : anim_t) (sd : Nat) (b : Int) (s : Driver)
    (h : driver_inv s) : driver_inv (anim mem k sd b s) := by
  cases k
  · exact driver_inv_of_ctl s _ h ⟨rfl, rfl⟩
  · simp only [anim]
    refine driver_inv_of_ctl _ _ ?_ (anim_goleft_come_ctl mem _ sd 4 0 _)
    apply anim_apply_brightness_inv
    exact driver_inv_of_ctl s _ h (anim_goleft_leave_ctl sd 4 s)
  · simp only [anim]
    refine driver_inv_of_ctl _ _ ?_ (anim_goright_come_ctl mem _ sd _ 0 _)
    apply anim_apply_brightness_inv
    exact driver_inv_of_ctl s _ h (anim_goright_leave_ctl sd 4 s)
  · simp only [anim]
    refine driver_inv_of_ctl _ _ ?_ (anim_vertical_come_ctl _ mem sd 3 1 _)
    apply anim_apply_brightness_inv
    exact driver_inv_of_ctl s _ h (anim_vertical_leave_ctl _ sd 3 s)
  · simp only [anim]
    refine driver_inv_of_ctl _ _ ?_ (anim_vertical_come_ctl _ mem sd 3 1 _)
    apply anim_apply_brightness_inv
    exact driver_inv_of_ctl s _ h (anim_vertical_leave_ctl _ sd 3 s)

theorem tick_inv (s : Driver) (h : driver_inv s) : driver_inv (TIMER2_OVF_vect s) := by
  have h3 : c_max_brightness = 3 := rfl
  unfold driver_inv at *
  rw [tick_brightness]
  refine ⟨?_, h.2⟩
  by_cases hb : s.g_brightness = c_max_brightness
  · rw [(tick_counter_bright s hb h.1).1]
    omega
  · have hlt : s.g_brightness < c_max_brightness := by omega
    rw [(tick_counter_dim s hlt h.1).1]
    split_ifs <;> omega

theorem op_run_inv (op : Op) (s : Driver) (h : driver_inv s) : driver_inv (op.run s) := by
  cases op with
  | tick => exact tick_inv s h
  | init_indicator => exact driver_inv_of_ctl s _ h ⟨rfl, rfl⟩
  | set_brightness b => exact set_brightness_inv b s h
  | anim mem k sd b => exact anim_inv mem k sd b s h
  | clear_indicator => exact driver_inv_of_ctl s _ h ⟨rfl, rfl⟩
  | show_cells d0 d1 d2 d3 => exact driver_inv_of_ctl s _ h ⟨rfl, rfl⟩
  | show_place d place =>
    refine driver_inv_of_ctl s _ h ?_
    simp only [Op.run, show_place]
    split_ifs <;> exact ⟨rfl, rfl⟩
  | show_fix num d b e sp he => exact driver_inv_of_ctl s _ h ⟨rfl, rfl⟩
  | show_int num b e sp he => exact driver_inv_of_ctl s _ h ⟨rfl, rfl⟩

theorem show_fix_to_outside (mem : Mem) (v : Int) (d b e sp : Nat) (he : e ≤ 3) (j : Int)
    (hj : j < 0 ∨ 3 < j) : (show_fix_to mem v d b e sp).2 j = mem j := by
  obtain ⟨s0, hs0, heq⟩ := show_fix_to_mem_eq mem v d b e sp
  rw [heq, show_fix_loop_mem_outside, hs0]
  omega

theorem anim_outside (mem : Mem) (k : anim_t) (sd : Nat) (b : Int) (s : Driver) (j : Int)
    (hj : j < 0 ∨ 3 < j) : (anim mem k sd b s).g_indicator j = s.g_indicator j := by
  have j0 : j ≠ 0 := by omega
  have j1 : j ≠ 1 := by omega
  have j2 : j ≠ 2 := by omega
  have j3 : j ≠ 3 := by omega
  have hleave : ∀ (send : Nat → Nat) (t : Driver),
      (anim_vertical_leave send sd 3 t).g_indicator j = t.g_indicator j := by
    intro send t
    simp [anim_vertical_leave, anim_send_cells, delay, Mem.write, j0, j1, j2, j3]
  have hcome : ∀ (take : Nat → Nat → Nat) (t : Driver),
      (anim_vertical_come take mem sd 3 1 t).g_indicator j = t.g_indicator j := by
    intro take t
    simp [anim_vertical_come, anim_map_cells, delay, Mem.write, j0, j1, j2, j3]
  cases k
  · simp [anim, anim_map_cells, Mem.write, j0, j1, j2, j3]
  · exact anim_goleft_outside mem sd b s j hj
  · exact anim_goright_outside mem sd b s j hj
  · simp only [anim]
    rw [hcome, anim_apply_brightness_indicator, hleave]
  · simp only [anim]
    rw [hcome, anim_apply_brightness_indicator, hleave]

theorem op_run_outside (op : Op) (s : Driver) (j : Int) (hj : j < 0 ∨ 3 < j) :
    (op.run s).g_indicator j = s.g_indicator j := by
  have j0 : j ≠ 0 := by omega
  have j1 : j ≠ 1 := by omega
  have j2 : j ≠ 2 := by omega
  have j3 : j ≠ 3 := by omega
  cases op with
  | tick =>
    simp only [Op.run]
    rw [tick_indicator]
  | init_indicator => rfl
  | set_brightness b => rfl
  | anim mem k sd b => exact anim_outside mem k sd b s j hj
  | clear_indicator => simp [Op.run, clear_indicator, Mem.write, j0, j1, j2, j3]
  | show_cells d0 d1 d2 d3 => simp [Op.run, show_cells, Mem.write, j0, j1, j2, j3]
  | show_place d place =>
    simp only [Op.run, show_place]
    split_ifs with hp
    · have hne : j ≠ (place : Int) := by omega
      simp [Mem.write, hne]
    · rfl
  | show_fix num d b e sp he =>
    exact show_fix_to_outside s.g_indicator num d b e sp he j hj
  | show_int num b e sp he =>
    exact show_fix_to_outside s.g_indicator num 0 b e sp he j hj

theorem run_ops_inv (ops : List Op) (s : Driver) (h : driver_inv s) :
    driver_inv (run_ops ops s) := by
  induction ops generalizing s with
  | nil => exact h
  | cons op rest ih => exact ih (op.run s) (op_run_inv op s h)

theorem tick_phase_display_le (s : Driver) (h : driver_inv s) (i : Nat)
    (hp : tick_phase s = Phase.display i) : i ≤ 3 := by
  have h3 : c_max_brightness = 3 := rfl
  unfold driver_inv at h
  by_cases hb : s.g_brightness = c_max_brightness
  · have := (tick_counter_bright s hb h.1).2
    rw [this] at hp
    injection hp with hi
    omega
  · have hlt : s.g_brightness < c_max_brightness := by omega
    have := (tick_counter_dim s hlt h.1).2
    rw [this] at hp
    split_ifs at hp with h4
    injection hp with hi
    omega

/-- C21: the state invariant of the driver (position counter at most 4, brightness level at
most 3) holds in the initial state, where the counter is 0 and the level 3, and wherever it
holds it is preserved by every operation of the driver (a timer tick, `init_indicator`,
`set_brightness` with any argument, `anim` with any kind and any brightness argument,
`clear_indicator`, the `show` writes, and the formatters `show_fix` and `show_int` called
with a range that ends inside the live buffer, `end <= 3`), hence by every sequence of
them, and by any change of the four cells of the live buffer alone; every such operation
stores in the live buffer only at the indices 0..3, so none of them reaches what lies next
to the array; under the invariant a display tick reads `g_indicator` at a position that is
at most 3 (the one it puts on `PORTB`), and the index `g_brightness` of the on and off
divider tables is inside both tables. -/
theorem driver_inv_preserved (s : Driver) (h : driver_inv s) :
    (driver_inv initial_driver ∧ initial_driver.g_indicator_i = 0 ∧
      initial_driver.g_brightness = 3) ∧
    (∀ op : Op, driver_inv (op.run s)) ∧
    (∀ ops : List Op, driver_inv (run_ops ops s)) ∧
    (∀ (op : Op) (j : Int), j < 0 ∨ 3 < j → (op.run s).g_indicator j = s.g_indicator j) ∧
    (∀ g : Mem, driver_inv { s with g_indicator := g }) ∧
    (∀ i : Nat, tick_phase s = Phase.display i →
      i ≤ 3 ∧ (TIMER2_OVF_vect s).PORTB = s.g_indicator (i : Int)) ∧
    (s.g_brightness < c_indicator_prescalers_on.length ∧
      s.g_brightness < c_indicator_prescalers_off.length) := by
  refine ⟨⟨⟨by decide, by decide⟩, rfl, rfl⟩, fun op => op_run_inv op s h,
    fun ops => run_ops_inv ops s h, fun op j hj => op_run_outside op s j hj, fun g => h,
    ?_, ?_⟩
  · intro i hp
    exact ⟨tick_phase_display_le s h i hp, (tick_display_regs s i hp).1⟩
  · have hl1 : c_indicator_prescalers_on.length = 4 := rfl
    have hl2 : c_indicator_prescalers_off.length = 4 := rfl
    have hb := h.2
    rw [hl1, hl2]
    omega

theorem driver_inv_preserved_witness :
    driver_inv initial_driver ∧
    driver_inv (run_ops [Op.init_indicator, Op.tick, Op.set_brightness (-7),
      Op.show_int 42 0 3 0 (by decide), Op.anim (Mem.ofCells DIGIT_1 0 0 0) anim_t.ANIM_GOUP 5 100,
      Op.tick, Op.tick, Op.tick, Op.tick, Op.tick] initial_driver) :=
  ⟨(driver_inv_preserved initial_driver ⟨by decide, by decide⟩).1.1,
   (driver_inv_preserved initial_driver ⟨by decide, by decide⟩).2.2.1 _⟩

/-! ## The timer divider -/

/-- C22: a tick never stops its own timer. For every state with the position counter in
0..4 and the brightness level in 0..3, the divider register `TCCR2B` after a tick is 2, 4,
5 or 6, so it is not 0; the entry of the off-divider table at `c_max_brightness` is 0, and
it is never written to the timer, because at `c_max_brightness` the tick is never a pause
tick (a pause tick writes the off-divider of a level below `c_max_brightness`). -/
theorem tick_timer_not_stopped (s : Driver) (hi : s.g_indicator_i ≤ 4)
    (hb : s.g_brightness ≤ 3) :
    (TIMER2_OVF_vect s).TCCR2B ≠ 0 ∧
    ((TIMER2_OVF_vect s).TCCR2B = 2 ∨ (TIMER2_OVF_vect s).TCCR2B = 4 ∨
      (TIMER2_OVF_vect s).TCCR2B = 5 ∨ (TIMER2_OVF_vect s).TCCR2B = 6) ∧
    c_indicator_prescalers_off.getD c_max_brightness 0 = 0 ∧
    (s.g_brightness = c_max_brightness → tick_phase s ≠ Phase.pause) ∧
    (tick_phase s = Phase.pause →
      s.g_brightness < c_max_brightness ∧
      (TIMER2_OVF_vect s).TCCR2B = c_indicator_prescalers_off.getD s.g_brightness 0) := by
  have h3 : c_max_brightness = 3 := rfl
  have hbright : s.g_brightness = c_max_brightness → tick_phase s ≠ Phase.pause := by
    intro hx hp
    rw [(tick_counter_bright s hx hi).2] at hp
    exact Phase.noConfusion hp
  have hpause : tick_phase s = Phase.pause →
      s.g_brightness < c_max_brightness ∧
      (TIMER2_OVF_vect s).TCCR2B = c_indicator_prescalers_off.getD s.g_brightness 0 := by
    intro hp
    refine ⟨?_, (tick_pause_regs s hp).1⟩
    by_contra hx
    exact hbright (by omega) hp
  have hval : (TIMER2_OVF_vect s).TCCR2B = 2 ∨ (TIMER2_OVF_vect s).TCCR2B = 4 ∨
      (TIMER2_OVF_vect s).TCCR2B = 5 ∨ (TIMER2_OVF_vect s).TCCR2B = 6 := by
    cases hph : tick_phase s with
    | display i =>
      rw [(tick_display_regs s i hph).2.1]
      generalize s.g_brightness = b at hb
      interval_cases b <;> decide
    | pause =>
      obtain ⟨hlt, hT⟩ := hpause hph
      rw [hT]
      rw [h3] at hlt
      generalize s.g_brightness = b at hlt
      interval_cases b <;> decide
  refine ⟨?_, hval, rfl, hbright, hpause⟩
  rcases hval with hv | hv | hv | hv <;> rw [hv] <;> decide

theorem tick_timer_not_stopped_witness :
    ((4 : Nat) ≤ 4 ∧ (2 : Nat) ≤ 3) ∧
    (TIMER2_OVF_vect ⟨Mem.ofCells DIGIT_1 DIGIT_2 DIGIT_3 DIGIT_4, 4, 2, 0, 0, 0, []⟩).TCCR2B
      ≠ 0 ∧
    (TIMER2_OVF_vect ⟨Mem.ofCells DIGIT_1 DIGIT_2 DIGIT_3 DIGIT_4, 4, 2, 0, 0, 0, []⟩).TCCR2B
      = 4 :=
  ⟨by decide,
   (tick_timer_not_stopped ⟨Mem.ofCells DIGIT_1 DIGIT_2 DIGIT_3 DIGIT_4, 4, 2, 0, 0, 0, []⟩
      (by decide) (by decide)).1,
   by decide⟩

/-! ## The formatter: cells outside the range -/

/-- C23: the formatter writes only inside its range. For every call
`show_fix_to(mem, v, decimals, begin, end, fill)` with `0 <= begin <= end <= 3`, every
value `v`, every `decimals` and fill char, and whatever flag is returned, every cell of
`mem` with an index below `begin` or above `end` is the same after the call as before; and
when `begin > end` the buffer is left as it was, cell for cell, and the flag is true exactly
when `v = 0`. -/
theorem show_fix_to_frame (mem : Mem) (v : Int) (d b e fill : Nat) (hb : b ≤ e)
    (he : e ≤ 3) :
    (∀ j : Int, j < (b : Int) ∨ (e : Int) < j →
      (show_fix_to mem v d b e fill).2 j = mem j) ∧
    (∀ b2 e2 : Nat, e2 < b2 →
      (show_fix_to mem v d b2 e2 fill).2 = mem ∧
      ((show_fix_to mem v d b2 e2 fill).1 = true ↔ v = 0)) := by
  constructor
  · intro j hj
    obtain ⟨s0, hs0, heq⟩ := show_fix_to_mem_eq mem v d b e fill
    rw [heq, show_fix_loop_mem_outside, hs0]
    omega
  · intro b2 e2 hlt
    have hn : ((e2 : Int) - (b2 : Int) + 1).toNat = 0 := by omega
    unfold show_fix_to
    simp only [hn, show_fix_loop]
    by_cases hv : v < 0

    · simp only [if_pos hv]
      refine ⟨trivial, ?_⟩
      constructor
      · intro hx
        simp at hx
      · intro hx
        omega
    · simp only [if_neg hv]
      refine ⟨trivial, ?_⟩
      by_cases h0 : v = 0
      · simp [h0]
      · simp [h0]

theorem show_fix_to_frame_witness :
    (1 ≤ 2 ∧ 2 ≤ 3) ∧
    (show_fix_to (Mem.ofCells 11 12 13 14) (-12345) 1 1 2 7).2 0 = 11 ∧
    (show_fix_to (Mem.ofCells 11 12 13 14) (-12345) 1 1 2 7).2 3 = 14 ∧
    (show_fix_to (Mem.ofCells 11 12 13 14) (-12345) 1 1 2 7).1 = false :=
  ⟨by decide,
   (show_fix_to_frame (Mem.ofCells 11 12 13 14) (-12345) 1 1 2 7 (by decide) (by decide)).1
      0 (Or.inl (by decide)),
   (show_fix_to_frame (Mem.ofCells 11 12 13 14) (-12345) 1 1 2 7 (by decide) (by decide)).1
      3 (Or.inr (by decide)),
   by decide⟩

end Indicator
